import Mathlib

/-!
# Verification of the snapshot generator (`generate_snapshots.py`) and its
# validation suite (`tests/test_snapshot_validation.py`)

This file gives a shallow embedding of the value-normalization, snapshot
building, persistence ordering and comparison logic of the repository, and
proves (or refutes) the frozen specification claims against it.

The Python code manipulates JSON-compatible Python values: `None`, `bool`,
`int` (arbitrary precision), `float` (with NaN and the two infinities),
`str`, `bytes`, lists/tuples and string-keyed dicts.  We model this value
universe as the inductive type `JVal` below.  The `numpy` array branch and
the `__dict__` attribute-bag branch of `serialize_value` convert foreign
objects into this same universe at the library boundary and are outside the
modeled domain; every claim under analysis concerns values already inside
the JSON-compatible universe.

Python floats are modeled as exact rationals plus the three IEEE special
values (`nan`, `inf`, `-inf`).  Machine integers do not occur: Python
integers are unbounded, so they are modeled as `Int` directly.
-/

/-- Model of a Python float: a finite value (exact rational) or one of the
IEEE special values NaN, +Infinity, -Infinity. -/
inductive PyFloat where
  | finite (q : ℚ)
  | nan
  | inf
  | ninf
deriving DecidableEq, Repr

/-- The JSON-compatible Python value universe manipulated by
`generate_snapshots.py` and `test_snapshot_validation.py`:
`None`, `bool`, `int`, `float`, `str`, `bytes` (a list of byte values),
lists (tuples are also lists: `serialize_value` converts tuples to lists and
the JSON layer never distinguishes them), and string-keyed dicts modeled as
association lists in insertion order. -/
inductive JVal where
  | jnull
  | jbool (b : Bool)
  | jint (n : ℤ)
  | jfloat (f : PyFloat)
  | jstr (s : String)
  | jbytes (bs : List ℕ)
  | jlist (xs : List JVal)
  | jdict (kvs : List (String × JVal))

namespace JVal

theorem sizeOf_lt_of_mem_list {x : JVal} {xs : List JVal} (h : x ∈ xs) :
    sizeOf x < sizeOf (JVal.jlist xs) := by
  have := List.sizeOf_lt_of_mem h
  simp only [jlist.sizeOf_spec]
  omega

theorem sizeOf_lt_of_mem_dict {p : String × JVal} {kvs : List (String × JVal)}
    (h : p ∈ kvs) : sizeOf p.2 < sizeOf (JVal.jdict kvs) := by
  have h1 := List.sizeOf_lt_of_mem h
  have h2 : sizeOf p.2 < sizeOf p := by
    obtain ⟨k, v⟩ := p
    simp only [Prod.mk.sizeOf_spec]
    omega
  simp only [jdict.sizeOf_spec]
  omega

/-- Size-based induction principle for `JVal`, giving the inductive
hypothesis at every member of a list node and every value of a dict node. -/
theorem inductionOn {P : JVal → Prop}
    (hnull : P .jnull)
    (hbool : ∀ b, P (.jbool b))
    (hint : ∀ n, P (.jint n))
    (hfloat : ∀ f, P (.jfloat f))
    (hstr : ∀ s, P (.jstr s))
    (hbytes : ∀ bs, P (.jbytes bs))
    (hlist : ∀ xs, (∀ x ∈ xs, P x) → P (.jlist xs))
    (hdict : ∀ kvs, (∀ p ∈ kvs, P p.2) → P (.jdict kvs)) :
    ∀ v, P v := by
  have main : ∀ n : ℕ, ∀ v : JVal, sizeOf v ≤ n → P v := by
    intro n
    induction n with
    | zero =>
      intro v hv
      cases v <;> simp_arith at hv
    | succ n ih =>
      intro v hv
      cases v with
      | jnull => exact hnull
      | jbool b => exact hbool b
      | jint m => exact hint m
      | jfloat f => exact hfloat f
      | jstr s => exact hstr s
      | jbytes bs => exact hbytes bs
      | jlist xs =>
        refine hlist xs (fun x hx => ih x ?_)
        have := sizeOf_lt_of_mem_list hx
        omega
      | jdict kvs =>
        refine hdict kvs (fun p hp => ih p.2 ?_)
        have := sizeOf_lt_of_mem_dict hp
        omega
  exact fun v => main (sizeOf v) v le_rfl

end JVal

/-! ## Decimal rendering of integers (Python `str(int)`)

`str(n)` for a Python int renders the exact decimal value, with a leading
`-` for negatives and no other characters. -/

/-- Little-endian decimal digits, with explicit fuel so that the
definition is structurally recursive (and therefore evaluates inside the
kernel); `n` itself always suffices as fuel. -/
def natDigitsRevGo : ℕ → ℕ → List ℕ
  | 0, _ => []
  | _ + 1, 0 => []
  | fuel + 1, n + 1 => ((n + 1) % 10) :: natDigitsRevGo fuel ((n + 1) / 10)

/-- Little-endian list of decimal digits of `n` (empty for 0). -/
def natDigitsRev (n : ℕ) : List ℕ := natDigitsRevGo n n

theorem natDigitsRevGo_irrel : ∀ (f1 : ℕ) (n : ℕ) (f2 : ℕ), n ≤ f1 → n ≤ f2 →
    natDigitsRevGo f1 n = natDigitsRevGo f2 n := by
  intro f1
  induction f1 with
  | zero =>
    intro n f2 h1 _
    interval_cases n
    cases f2 <;> rfl
  | succ f ih =>
    intro n f2 h1 h2
    match n, f2 with
    | 0, 0 => rfl
    | 0, g + 1 => rfl
    | m + 1, g + 1 =>
      simp only [natDigitsRevGo]
      have hdiv : (m + 1) / 10 < m + 1 := Nat.div_lt_self (Nat.succ_pos m) (by norm_num)
      exact congrArg _ (ih ((m + 1) / 10) g (by omega) (by omega))

theorem natDigitsRev_zero : natDigitsRev 0 = [] := rfl

theorem natDigitsRev_succ (n : ℕ) :
    natDigitsRev (n + 1) = ((n + 1) % 10) :: natDigitsRev ((n + 1) / 10) := by
  show natDigitsRevGo (n + 1) (n + 1) = _
  simp only [natDigitsRevGo]
  have hdiv : (n + 1) / 10 < n + 1 := Nat.div_lt_self (Nat.succ_pos n) (by norm_num)
  exact congrArg _ (natDigitsRevGo_irrel n ((n + 1) / 10) ((n + 1) / 10)
    (by omega) le_rfl)

/-- A decimal digit as a character. -/
def digitChar (d : ℕ) : Char := Char.ofNat (48 + d % 10)

/-- Python `str(n)` for a nonnegative integer. -/
def natStr (n : ℕ) : String :=
  if n = 0 then "0" else String.mk ((natDigitsRev n).reverse.map digitChar)

/-- Python `str(n)` for an arbitrary integer: decimal digits with a leading
minus sign exactly when `n < 0`. -/
def intStr (n : ℤ) : String :=
  if n < 0 then "-" ++ natStr n.natAbs else natStr n.natAbs

/-- Value of a character as a decimal digit, if it is one. -/
def charDigit? (c : Char) : Option ℕ :=
  if 48 ≤ c.toNat ∧ c.toNat ≤ 57 then some (c.toNat - 48) else none

/-- Parse a nonempty string of decimal digits to a natural number. -/
def parseNatDigits : List Char → Option ℕ
  | [] => none
  | cs =>
    cs.foldl (fun acc c => do
      let a ← acc
      let d ← charDigit? c
      pure (a * 10 + d)) (some 0)

/-- Is a character a decimal digit (`[0-9]`)? -/
def isDigitCh (c : Char) : Bool := 48 ≤ c.toNat && c.toNat ≤ 57

/-- Parse Python's `int(s)` on the exact output format of `str(int)`:
an optional leading `-` followed by decimal digits. -/
def parseDec (s : String) : Option ℤ :=
  if s.data.isEmpty then none
  else if s.data.head? = some '-' then
    (parseNatDigits s.data.tail).map (fun m => -(Int.ofNat m))
  else (parseNatDigits s.data).map (fun m => Int.ofNat m)

/-- Does a string match the regular expression `^-?[0-9]+$`? -/
def decRegexMatch (s : String) : Bool :=
  if s.data.isEmpty then false
  else if s.data.head? = some '-' then
    !s.data.tail.isEmpty && s.data.tail.all isDigitCh
  else s.data.all isDigitCh

/-! ### Facts about the decimal rendering -/

theorem digitChar_toNat (d : ℕ) : (digitChar d).toNat = 48 + d % 10 := by
  have h : d % 10 < 10 := Nat.mod_lt _ (by norm_num)
  unfold digitChar
  set r := d % 10 with hr
  interval_cases r <;> decide

theorem natDigitsRev_lt (n : ℕ) : ∀ x ∈ natDigitsRev n, x < 10 := by
  induction n using Nat.strong_induction_on with
  | _ n ih =>
    match n with
    | 0 => intro x hx; simp [natDigitsRev_zero] at hx
    | m + 1 =>
      intro x hx
      rw [natDigitsRev_succ] at hx
      rcases List.mem_cons.mp hx with h | h
      · subst h; exact Nat.mod_lt _ (by norm_num)
      · exact ih ((m + 1) / 10) (Nat.div_lt_self (Nat.succ_pos m) (by norm_num)) x h

theorem natDigitsRev_ne_nil {n : ℕ} (h : n ≠ 0) : natDigitsRev n ≠ [] := by
  match n with
  | 0 => exact absurd rfl h
  | m + 1 => rw [natDigitsRev_succ]; simp

/-- Folding the decimal digits back into a number. -/
def decFoldStep (a : ℕ) (c : Char) : ℕ := a * 10 + (c.toNat - 48)

theorem decFold_digits (n : ℕ) : ∀ a : ℕ,
    ((natDigitsRev n).reverse.map digitChar).foldl decFoldStep a =
      a * 10 ^ (natDigitsRev n).length + n := by
  induction n using Nat.strong_induction_on with
  | _ n ih =>
    match n with
    | 0 => intro a; simp [natDigitsRev_zero]
    | m + 1 =>
      intro a
      rw [natDigitsRev_succ]
      simp only [List.reverse_cons, List.map_append, List.map_cons, List.map_nil,
        List.foldl_append, List.foldl_cons, List.foldl_nil, List.length_cons]
      rw [ih ((m + 1) / 10) (Nat.div_lt_self (Nat.succ_pos m) (by norm_num))]
      unfold decFoldStep
      rw [digitChar_toNat]
      have h1 : (m + 1) % 10 % 10 = (m + 1) % 10 :=
        Nat.mod_mod_of_dvd _ (by norm_num)
      have h2 : 10 * ((m + 1) / 10) + (m + 1) % 10 = m + 1 := Nat.div_add_mod _ _
      ring_nf
      omega

theorem natStr_data (n : ℕ) (h : n ≠ 0) :
    (natStr n).data = (natDigitsRev n).reverse.map digitChar := by
  unfold natStr
  simp [h]

theorem natStr_all_digits (n : ℕ) :
    ∀ c ∈ (natStr n).data, 48 ≤ c.toNat ∧ c.toNat ≤ 57 := by
  by_cases h : n = 0
  · subst h; intro c hc
    simp only [natStr, if_pos rfl] at hc
    have : c = '0' := by simpa using hc
    subst this; decide
  · rw [natStr_data n h]
    intro c hc
    rcases List.mem_map.mp hc with ⟨d, hd, rfl⟩
    have hd10 : d < 10 := natDigitsRev_lt n d (List.mem_reverse.mp hd)
    rw [digitChar_toNat]
    omega

theorem natStr_ne_nil (n : ℕ) : (natStr n).data ≠ [] := by
  by_cases h : n = 0
  · subst h; simp [natStr]
  · rw [natStr_data n h]
    intro hcontra
    have := natDigitsRev_ne_nil h
    rcases List.eq_nil_or_concat (natDigitsRev n) with h2 | ⟨l, x, h2⟩
    · exact this h2
    · rw [h2] at hcontra; simp at hcontra

theorem parseNatDigits_of_digits (cs : List Char)
    (hne : cs ≠ []) (hdig : ∀ c ∈ cs, 48 ≤ c.toNat ∧ c.toNat ≤ 57) :
    parseNatDigits cs = some (cs.foldl decFoldStep 0) := by
  have main : ∀ (l : List Char), (∀ c ∈ l, 48 ≤ c.toNat ∧ c.toNat ≤ 57) →
      ∀ a : ℕ,
      l.foldl (fun acc c => do
        let x ← acc
        let d ← charDigit? c
        pure (x * 10 + d)) (some a) = some (l.foldl decFoldStep a) := by
    intro l
    induction l with
    | nil => intro _ a; simp
    | cons c l ihl =>
      intro hl a
      have hc := hl c (List.mem_cons_self c l)
      have hcd : charDigit? c = some (c.toNat - 48) := by
        unfold charDigit?
        rw [if_pos hc]
      simp only [List.foldl_cons, hcd]
      have := ihl (fun x hx => hl x (List.mem_cons_of_mem c hx)) (a * 10 + (c.toNat - 48))
      simpa [decFoldStep] using this
  unfold parseNatDigits
  match cs, hne with
  | c :: rest, _ =>
    exact main (c :: rest) hdig 0

theorem parseNatDigits_natStr (n : ℕ) :
    parseNatDigits (natStr n).data = some n := by
  rw [parseNatDigits_of_digits _ (natStr_ne_nil n) (natStr_all_digits n)]
  congr 1
  by_cases h : n = 0
  · subst h; simp [natStr]; decide
  · rw [natStr_data n h, decFold_digits n 0]
    simp

theorem natStr_head_ne_minus (n : ℕ) :
    ∀ c ∈ (natStr n).data, c ≠ '-' := by
  intro c hc hcontra
  have := natStr_all_digits n c hc
  subst hcontra
  revert this; decide

/-! ## Base64 (Python `base64.b64encode`, RFC 4648, no line wrapping) -/

/-- The standard base64 alphabet. -/
def b64Alphabet : List Char :=
  "ABCDEFGHIJKLMNOPQRSTUVWXYZabcdefghijklmnopqrstuvwxyz0123456789+/".data

/-- The base64 character for a 6-bit group. -/
def b64CharOf (n : ℕ) : Char := b64Alphabet.getD (n % 64) 'A'

/-- Characters of the base64 encoding of a byte sequence, processed in
3-byte groups with `=` padding, exactly as `base64.b64encode` does. -/
def base64Chars : List ℕ → List Char
  | [] => []
  | [a] => [b64CharOf (a / 4), b64CharOf ((a % 4) * 16), '=', '=']
  | [a, b] => [b64CharOf (a / 4), b64CharOf ((a % 4) * 16 + b / 16),
               b64CharOf ((b % 16) * 4), '=']
  | a :: b :: c :: rest =>
      b64CharOf (a / 4) :: b64CharOf ((a % 4) * 16 + b / 16) ::
      b64CharOf ((b % 16) * 4 + c / 64) :: b64CharOf (c % 64) :: base64Chars rest

/-- `base64.b64encode(bs).decode('ascii')`. -/
def base64Encode (bs : List ℕ) : String := String.mk (base64Chars bs)

/-- Index of a character in the base64 alphabet (its 6-bit value). -/
def b64Inv (c : Char) : Option ℕ := b64Alphabet.indexOf? c

/-- Base64 decoding of the character shapes that `base64Chars` emits:
the inverse used to state that the encoding is canonical (round-trips). -/
def base64DecodeChars : List Char → Option (List ℕ)
  | [] => some []
  | c1 :: c2 :: c3 :: c4 :: rest =>
      if c3 = '=' ∧ c4 = '=' ∧ rest = [] then do
        let e1 ← b64Inv c1
        let e2 ← b64Inv c2
        pure [e1 * 4 + e2 / 16]
      else if c4 = '=' ∧ rest = [] then do
        let e1 ← b64Inv c1
        let e2 ← b64Inv c2
        let e3 ← b64Inv c3
        pure [e1 * 4 + e2 / 16, (e2 % 16) * 16 + e3 / 4]
      else do
        let e1 ← b64Inv c1
        let e2 ← b64Inv c2
        let e3 ← b64Inv c3
        let e4 ← b64Inv c4
        let tail ← base64DecodeChars rest
        pure ((e1 * 4 + e2 / 16) :: ((e2 % 16) * 16 + e3 / 4) ::
              ((e3 % 4) * 64 + e4) :: tail)
  | _ => none

/-! ## The Value Normalizer (`serialize_value`)

Translated from `serialize_value` in `generate_snapshots.py`.  Branches in
the source, in order: `bytes`, numpy (outside the modeled universe — it
re-enters through `tolist()`), `float`, `int` (which in Python also catches
`bool`, since `bool` is a subclass of `int`; `int(True) == 1`), list/tuple
(element-wise, propagating the same `key`), dict (each value normalized
with its own key as the new context), attribute bags (outside the modeled
universe), and a pass-through default. -/

/-- The fixed identifier-field allow-list
`{"path_id", "m_PathID", "m_PathId", "pathID", "PathID"}`. -/
def pathIdKeys : List String := ["path_id", "m_PathID", "m_PathId", "pathID", "PathID"]

/-- Is the field-name context an identifier key? (`key in {...}`) -/
def isIdKey : Option String → Bool
  | none => false
  | some k => pathIdKeys.contains k

/-- Numeric value of a Python bool used by `int(value)` / arithmetic. -/
def boolInt (b : Bool) : ℤ := if b then 1 else 0

mutual

/-- `serialize_value(value, key)`. -/
def serializeValue : JVal → Option String → JVal
  | .jbytes bs, _ =>
      .jdict [("_binary", .jbool true), ("_format", .jstr "base64"),
              ("size", .jint bs.length), ("data", .jstr (base64Encode bs))]
  | .jfloat f, _ =>
      .jfloat (match f with
               | .finite q => .finite q
               | _ => .finite 0)
  | .jint n, key => if isIdKey key then .jstr (intStr n) else .jint n
  | .jbool b, key =>
      if isIdKey key then .jstr (intStr (boolInt b)) else .jint (boolInt b)
  | .jlist xs, key => .jlist (serializeList xs key)
  | .jdict kvs, _ => .jdict (serializeDict kvs)
  | .jnull, _ => .jnull
  | .jstr s, _ => .jstr s

/-- Element-wise normalization of a list, propagating the field-name
context (`[serialize_value(v, key) for v in value]`). -/
def serializeList : List JVal → Option String → List JVal
  | [], _ => []
  | x :: xs, key => serializeValue x key :: serializeList xs key

/-- Key-wise normalization of a dict
(`{k: serialize_value(v, k) for k, v in value.items()}`). -/
def serializeDict : List (String × JVal) → List (String × JVal)
  | [] => []
  | (k, v) :: rest => (k, serializeValue v (some k)) :: serializeDict rest

end

/-! ## `convert_pathids_to_strings`

Recursively converts values lying directly under an identifier key to
strings when they are ints (which in Python includes bools: `str(True)` is
`"True"`); all other values are recursed into, losing the key context. -/

/-- Python `str(value)` for a value known to be an `int` (or `bool`). -/
def pyStrIntLike : JVal → Option String
  | .jint n => some (intStr n)
  | .jbool b => some (if b then "True" else "False")
  | _ => none

mutual

/-- `convert_pathids_to_strings(obj)`. -/
def convertPathids : JVal → JVal
  | .jdict kvs => .jdict (convertPathidsDict kvs)
  | .jlist xs => .jlist (convertPathidsList xs)
  | v => v

def convertPathidsList : List JVal → List JVal
  | [] => []
  | x :: xs => convertPathids x :: convertPathidsList xs

def convertPathidsDict : List (String × JVal) → List (String × JVal)
  | [] => []
  | (k, v) :: rest =>
      (k, if pathIdKeys.contains k then
            match pyStrIntLike v with
            | some s => .jstr s
            | none => convertPathids v
          else convertPathids v) :: convertPathidsDict rest

end

/-! ### Base64 facts -/

theorem b64CharOf_mem (n : ℕ) : b64CharOf n ∈ b64Alphabet := by
  have h : n % 64 < 64 := Nat.mod_lt _ (by norm_num)
  have hlen : b64Alphabet.length = 64 := by decide
  unfold b64CharOf
  rw [List.getD_eq_getElem _ _ (by omega)]
  exact List.getElem_mem _

theorem b64CharOf_ne_eq (n : ℕ) : b64CharOf n ≠ '=' := by
  intro h
  have hmem := b64CharOf_mem n
  rw [h] at hmem
  revert hmem
  decide

theorem b64Inv_b64CharOf {n : ℕ} (h : n < 64) : b64Inv (b64CharOf n) = some n := by
  have : ∀ m : ℕ, m < 64 → b64Inv (b64CharOf m) = some m := by decide
  exact this n h

theorem base64Chars_mem (bs : List ℕ) :
    ∀ c ∈ base64Chars bs, c ∈ b64Alphabet ∨ c = '=' := by
  induction bs using base64Chars.induct with
  | case1 => intro c hc; simp [base64Chars] at hc
  | case2 a =>
    intro c hc
    simp only [base64Chars, List.mem_cons, List.not_mem_nil, or_false] at hc
    rcases hc with rfl | rfl | rfl | rfl
    · exact Or.inl (b64CharOf_mem _)
    · exact Or.inl (b64CharOf_mem _)
    · exact Or.inr rfl
    · exact Or.inr rfl
  | case3 a b =>
    intro c hc
    simp only [base64Chars, List.mem_cons, List.not_mem_nil, or_false] at hc
    rcases hc with rfl | rfl | rfl | rfl
    · exact Or.inl (b64CharOf_mem _)
    · exact Or.inl (b64CharOf_mem _)
    · exact Or.inl (b64CharOf_mem _)
    · exact Or.inr rfl
  | case4 a b c rest ih =>
    intro x hx
    simp only [base64Chars, List.mem_cons] at hx
    rcases hx with rfl | rfl | rfl | rfl | hx
    · exact Or.inl (b64CharOf_mem _)
    · exact Or.inl (b64CharOf_mem _)
    · exact Or.inl (b64CharOf_mem _)
    · exact Or.inl (b64CharOf_mem _)
    · exact ih x hx

theorem base64Chars_no_newline (bs : List ℕ) :
    ∀ c ∈ base64Chars bs, c ≠ '\n' := by
  intro c hc
  rcases base64Chars_mem bs c hc with h | h
  · intro hcontra; rw [hcontra] at h; revert h; decide
  · intro hcontra; rw [hcontra] at h; revert h; decide

theorem base64_roundtrip (bs : List ℕ) (h : ∀ b ∈ bs, b < 256) :
    base64DecodeChars (base64Chars bs) = some bs := by
  induction bs using base64Chars.induct with
  | case1 => simp [base64Chars, base64DecodeChars]
  | case2 a =>
    have ha : a < 256 := h a (by simp)
    rw [base64Chars]
    rw [base64DecodeChars]
    rw [if_pos ⟨rfl, rfl, rfl⟩]
    rw [b64Inv_b64CharOf (by omega), b64Inv_b64CharOf (by omega)]
    simp only [Option.bind_eq_bind, Option.some_bind, Option.some.injEq]
    rw [show (a / 4) * 4 + ((a % 4) * 16) / 16 = a from by omega]
    rfl
  | case3 a b =>
    have ha : a < 256 := h a (by simp)
    have hb : b < 256 := h b (by simp)
    rw [base64Chars]
    rw [base64DecodeChars]
    rw [if_neg (by rintro ⟨h1, -, -⟩; exact b64CharOf_ne_eq _ h1)]
    rw [if_pos ⟨rfl, rfl⟩]
    rw [b64Inv_b64CharOf (by omega), b64Inv_b64CharOf (by omega),
        b64Inv_b64CharOf (by omega)]
    simp only [Option.bind_eq_bind, Option.some_bind, Option.some.injEq]
    rw [show (a / 4) * 4 + ((a % 4) * 16 + b / 16) / 16 = a from by omega]
    rw [show (((a % 4) * 16 + b / 16) % 16) * 16 + ((b % 16) * 4) / 4 = b from by omega]
    rfl
  | case4 a b c rest ih =>
    have ha : a < 256 := h a (by simp)
    have hb : b < 256 := h b (by simp)
    have hc : c < 256 := h c (by simp)
    have hrest : ∀ x ∈ rest, x < 256 := fun x hx => h x (by simp [hx])
    rw [base64Chars]
    rw [base64DecodeChars]
    rw [if_neg (by rintro ⟨h1, -, -⟩; exact b64CharOf_ne_eq _ h1)]
    rw [if_neg (by rintro ⟨h1, -⟩; exact b64CharOf_ne_eq _ h1)]
    rw [b64Inv_b64CharOf (by omega), b64Inv_b64CharOf (by omega),
        b64Inv_b64CharOf (by omega), b64Inv_b64CharOf (by omega)]
    rw [ih hrest]
    simp only [Option.bind_eq_bind, Option.some_bind, Option.some.injEq]
    rw [show (a / 4) * 4 + ((a % 4) * 16 + b / 16) / 16 = a from by omega]
    rw [show (((a % 4) * 16 + b / 16) % 16) * 16 + (((b % 16) * 4 + c / 64)) / 4 = b
        from by omega]
    rw [show (((b % 16) * 4 + c / 64) % 4) * 64 + c % 64 = c from by omega]
    rfl

/-! ### Round-trip of the decimal rendering -/

theorem data_minus_append (t : String) :
    ("-" ++ t).data = '-' :: t.data := by
  simp [String.data_append]

theorem natStr_data_cons (n : ℕ) : ∃ c cs, (natStr n).data = c :: cs := by
  match hd : (natStr n).data with
  | [] => exact absurd hd (natStr_ne_nil _)
  | c :: cs => exact ⟨c, cs, rfl⟩

theorem parseDec_intStr (n : ℤ) : parseDec (intStr n) = some n := by
  by_cases hn : n < 0
  · unfold intStr
    rw [if_pos hn]
    unfold parseDec
    rw [data_minus_append]
    rw [if_neg (by simp)]
    simp only [List.head?_cons, List.tail_cons]
    rw [if_pos trivial, parseNatDigits_natStr]
    simp only [Option.map_some', Option.some.injEq, Int.ofNat_eq_natCast]
    omega
  · unfold intStr
    rw [if_neg hn]
    unfold parseDec
    obtain ⟨c, cs, hdata⟩ := natStr_data_cons n.natAbs
    have hcm : c ≠ '-' :=
      natStr_head_ne_minus _ c (by rw [hdata]; exact List.mem_cons_self _ _)
    rw [hdata]
    rw [if_neg (by simp)]
    simp only [List.head?_cons]
    rw [if_neg (by simp [hcm]), ← hdata, parseNatDigits_natStr]
    simp only [Option.map_some', Option.some.injEq, Int.ofNat_eq_natCast]
    omega

theorem natStr_all_isDigitCh (n : ℕ) : ∀ c ∈ (natStr n).data, isDigitCh c = true := by
  intro c hc
  have := natStr_all_digits n c hc
  unfold isDigitCh
  simp only [Bool.and_eq_true, decide_eq_true_eq]
  omega

theorem decRegexMatch_natStr (n : ℕ) : decRegexMatch (natStr n) = true := by
  unfold decRegexMatch
  obtain ⟨c, cs, hdata⟩ := natStr_data_cons n
  have hcm : c ≠ '-' :=
    natStr_head_ne_minus _ c (by rw [hdata]; exact List.mem_cons_self _ _)
  rw [hdata]
  rw [if_neg (by simp)]
  simp only [List.head?_cons]
  rw [if_neg (by simp [hcm])]
  rw [List.all_eq_true]
  intro x hx
  exact natStr_all_isDigitCh n x (by rw [hdata]; exact hx)

theorem decRegexMatch_intStr (n : ℤ) : decRegexMatch (intStr n) = true := by
  by_cases hn : n < 0
  · unfold intStr
    rw [if_pos hn]
    unfold decRegexMatch
    rw [data_minus_append]
    rw [if_neg (by simp)]
    simp only [List.head?_cons, List.tail_cons]
    rw [if_pos trivial]
    simp only [Bool.and_eq_true, Bool.not_eq_eq_eq_not, Bool.not_true,
      List.all_eq_true]
    constructor
    · obtain ⟨c, cs, hdata⟩ := natStr_data_cons n.natAbs
      rw [hdata]
      simp
    · exact natStr_all_isDigitCh n.natAbs
  · unfold intStr
    rw [if_neg hn]
    exact decRegexMatch_natStr _

/-! ## Paths into a value tree

A path is a sequence of dict-key and list-index steps.  The field-name
context that `serialize_value` (resp. `convert_pathids_to_strings`) carries
at the end of a path depends only on the path: a dict step installs its key
as the new context, a list step keeps the current context (the source
propagates `key` unchanged into list elements). -/

inductive PathStep where
  | dkey (k : String)
  | idx (i : ℕ)

/-- First-match association lookup (Python dicts have unique keys; for
such dicts this is exactly `d[k]`). -/
def lookupD : List (String × JVal) → String → Option JVal
  | [], _ => none
  | (k, v) :: rest, key => if k = key then some v else lookupD rest key

/-- The subtree of `v` at a path, if the path exists. -/
def getAt : JVal → List PathStep → Option JVal
  | v, [] => some v
  | .jdict kvs, .dkey k :: p =>
      match lookupD kvs k with
      | some w => getAt w p
      | none => none
  | .jlist xs, .idx i :: p =>
      match xs[i]? with
      | some w => getAt w p
      | none => none
  | _, _ => none

/-- The field-name context at the end of a path, starting from `ctx`. -/
def pathCtx : Option String → List PathStep → Option String
  | ctx, [] => ctx
  | _, .dkey k :: p => pathCtx (some k) p
  | ctx, .idx _ :: p => pathCtx ctx p

theorem lookupD_serializeDict (kvs : List (String × JVal)) (k : String) :
    lookupD (serializeDict kvs) k =
      (lookupD kvs k).map (fun w => serializeValue w (some k)) := by
  induction kvs with
  | nil => simp [serializeDict, lookupD]
  | cons kv rest ih =>
    obtain ⟨k', v⟩ := kv
    by_cases h : k' = k
    · subst h
      simp [serializeDict, lookupD]
    · simp only [serializeDict, lookupD, if_neg h]
      exact ih

theorem serializeList_getElem (xs : List JVal) (ctx : Option String) (i : ℕ) :
    (serializeList xs ctx)[i]? = (xs[i]?).map (fun w => serializeValue w ctx) := by
  induction xs generalizing i with
  | nil => simp [serializeList]
  | cons x rest ih =>
    match i with
    | 0 => simp [serializeList]
    | j + 1 =>
      simp only [serializeList, List.getElem?_cons_succ]
      exact ih j

/-- `serialize_value` preserves tree structure: the subtree of the output
at a path is the normalization of the input subtree at that path, under
the field-name context the path induces. -/
theorem getAt_serializeValue (p : List PathStep) :
    ∀ (v : JVal) (ctx : Option String) (sub : JVal),
    getAt v p = some sub →
    getAt (serializeValue v ctx) p = some (serializeValue sub (pathCtx ctx p)) := by
  induction p with
  | nil =>
    intro v ctx sub h
    simp only [getAt, Option.some.injEq] at h
    subst h
    simp [getAt, pathCtx]
  | cons step p ih =>
    intro v ctx sub h
    match step, v with
    | .dkey k, .jdict kvs =>
      simp only [getAt] at h
      match hw : lookupD kvs k with
      | some w =>
        rw [hw] at h
        have hser : serializeValue (.jdict kvs) ctx = .jdict (serializeDict kvs) := by
          simp [serializeValue]
        rw [hser]
        simp only [getAt, lookupD_serializeDict, hw, Option.map_some']
        simp only [pathCtx]
        exact ih w (some k) sub h
      | none => rw [hw] at h; exact absurd h (by simp)
    | .dkey k, .jnull => exact absurd h (by simp [getAt])
    | .dkey k, .jbool b => exact absurd h (by simp [getAt])
    | .dkey k, .jint n => exact absurd h (by simp [getAt])
    | .dkey k, .jfloat f => exact absurd h (by simp [getAt])
    | .dkey k, .jstr s => exact absurd h (by simp [getAt])
    | .dkey k, .jbytes bs => exact absurd h (by simp [getAt])
    | .dkey k, .jlist xs => exact absurd h (by simp [getAt])
    | .idx i, .jlist xs =>
      simp only [getAt] at h
      match hw : xs[i]? with
      | some w =>
        rw [hw] at h
        have hser : serializeValue (.jlist xs) ctx = .jlist (serializeList xs ctx) := by
          simp [serializeValue]
        rw [hser]
        simp only [getAt, serializeList_getElem, hw, Option.map_some']
        simp only [pathCtx]
        exact ih w ctx sub h
      | none => rw [hw] at h; exact absurd h (by simp)
    | .idx i, .jnull => exact absurd h (by simp [getAt])
    | .idx i, .jbool b => exact absurd h (by simp [getAt])
    | .idx i, .jint n => exact absurd h (by simp [getAt])
    | .idx i, .jfloat f => exact absurd h (by simp [getAt])
    | .idx i, .jstr s => exact absurd h (by simp [getAt])
    | .idx i, .jbytes bs => exact absurd h (by simp [getAt])
    | .idx i, .jdict kvs => exact absurd h (by simp [getAt])

/-! ## Claim C1: identifier-keyed integers become exact decimal strings -/

/-- C1: for every integer reached under a field name in the fixed
identifier allow-list, at any nesting depth (dict steps install the key as
context, list steps propagate it), `serialize_value` places at that position
the decimal-string rendering of the integer's exact value (for every `ℤ`,
hence in particular the full signed 64-bit range including negatives); the
string matches `^-?[0-9]+$`, parses back to the same integer, and
re-rendering the parsed integer yields the same string. -/
theorem serializeValue_idKey_int_decimal (p : List PathStep) (v : JVal)
    (ctx : Option String) (k : String) (n : ℤ)
    (hctx : pathCtx ctx p = some k)
    (hk : pathIdKeys.contains k = true)
    (hv : getAt v p = some (.jint n)) :
    getAt (serializeValue v ctx) p = some (.jstr (intStr n)) ∧
    decRegexMatch (intStr n) = true ∧
    parseDec (intStr n) = some n ∧
    (parseDec (intStr n)).map intStr = some (intStr n) := by
  refine ⟨?_, decRegexMatch_intStr n, parseDec_intStr n, ?_⟩
  · have h := getAt_serializeValue p v ctx _ hv
    rw [hctx] at h
    rw [h]
    have hk' : isIdKey (some k) = true := by simpa [isIdKey] using hk
    have hser : serializeValue (.jint n) (some k) = .jstr (intStr n) := by
      simp [serializeValue, hk']
    rw [hser]
  · rw [parseDec_intStr n]
    rfl

/-- C1 witness: a dict holding the sample 64-bit negative identifier
`-8911878726397676121` under `m_PathID`, normalized from the root. -/
theorem serializeValue_idKey_int_decimal_witness :
    pathCtx none [PathStep.dkey "m_PathID"] = some "m_PathID" ∧
    pathIdKeys.contains "m_PathID" = true ∧
    getAt (JVal.jdict [("m_PathID", JVal.jint (-8911878726397676121))])
      [PathStep.dkey "m_PathID"] = some (JVal.jint (-8911878726397676121)) ∧
    (getAt (serializeValue
        (JVal.jdict [("m_PathID", JVal.jint (-8911878726397676121))]) none)
        [PathStep.dkey "m_PathID"] = some (JVal.jstr (intStr (-8911878726397676121))) ∧
     decRegexMatch (intStr (-8911878726397676121)) = true ∧
     parseDec (intStr (-8911878726397676121)) = some (-8911878726397676121) ∧
     (parseDec (intStr (-8911878726397676121))).map intStr
        = some (intStr (-8911878726397676121))) :=
  ⟨rfl, rfl, rfl,
    serializeValue_idKey_int_decimal [PathStep.dkey "m_PathID"]
      (JVal.jdict [("m_PathID", JVal.jint (-8911878726397676121))])
      none "m_PathID" (-8911878726397676121) rfl rfl rfl⟩

/-! ## Claim C4: the binary envelope -/

/-- C4 counterexample: the envelope produced for a byte blob carries the
keys `_binary` and `_format` (with leading underscores), not `binary` and
`format` as the claim states: looking up `binary` or `format` in the
produced envelope finds nothing. -/
theorem serializeValue_bytes_envelope_keys_counterexample :
    serializeValue (.jbytes []) none =
      .jdict [("_binary", .jbool true), ("_format", .jstr "base64"),
              ("size", .jint 0), ("data", .jstr "")] ∧
    lookupD [("_binary", JVal.jbool true), ("_format", JVal.jstr "base64"),
             ("size", JVal.jint 0), ("data", JVal.jstr "")] "binary" = none ∧
    lookupD [("_binary", JVal.jbool true), ("_format", JVal.jstr "base64"),
             ("size", JVal.jint 0), ("data", JVal.jstr "")] "format" = none :=
  ⟨rfl, rfl, rfl⟩

/-- C4 amended: for every byte blob, `serialize_value` returns a tagged
envelope with exactly the keys `_binary` (set to true), `_format` (set to
"base64"), `size` and `data`, where `size` is the exact byte length and
`data` is the canonical base64 encoding with no line wrapping (it contains
no newline, and decoding it recovers exactly the input bytes). -/
theorem serializeValue_bytes_envelope (bs : List ℕ) (key : Option String)
    (h : ∀ b ∈ bs, b < 256) :
    serializeValue (.jbytes bs) key =
      .jdict [("_binary", .jbool true), ("_format", .jstr "base64"),
              ("size", .jint bs.length), ("data", .jstr (base64Encode bs))] ∧
    (∀ c ∈ (base64Encode bs).data, c ≠ '\n') ∧
    base64DecodeChars (base64Encode bs).data = some bs :=
  ⟨rfl, fun c hc => base64Chars_no_newline bs c hc, base64_roundtrip bs h⟩

/-- C4 witness: the 2-byte blob `[104, 105]` (`b"hi"`). -/
theorem serializeValue_bytes_envelope_witness :
    (∀ b ∈ [104, 105], b < 256) ∧
    (serializeValue (.jbytes [104, 105]) none =
      .jdict [("_binary", .jbool true), ("_format", .jstr "base64"),
              ("size", .jint 2), ("data", .jstr (base64Encode [104, 105]))] ∧
     (∀ c ∈ (base64Encode [104, 105]).data, c ≠ '\n') ∧
     base64DecodeChars (base64Encode [104, 105]).data = some [104, 105]) :=
  ⟨by decide, serializeValue_bytes_envelope [104, 105] none (by decide)⟩

/-! ## Claim C9: float normalization substitutes 0.0 for NaN and infinities -/

/-- C9: `serialize_value` maps every finite float to exactly itself, and
NaN, +Infinity and -Infinity to `0.0`, under every field-name context,
without failing. -/
theorem serializeValue_float (key : Option String) :
    serializeValue (.jfloat .nan) key = .jfloat (.finite 0) ∧
    serializeValue (.jfloat .inf) key = .jfloat (.finite 0) ∧
    serializeValue (.jfloat .ninf) key = .jfloat (.finite 0) ∧
    ∀ q : ℚ, serializeValue (.jfloat (.finite q)) key = .jfloat (.finite q) :=
  ⟨rfl, rfl, rfl, fun _ => rfl⟩

/-! ## Claim C10: the normalizer is not idempotent -/

/-- C10: booleans under non-identifier context are normalized to the
integers 1 and 0 (Python `bool` is a subclass of `int`), so re-normalizing
a binary envelope turns its `_binary: true` tag into the integer 1:
`serialize_value` is not idempotent, witnessed by any byte blob. -/
theorem serializeValue_not_idempotent :
    serializeValue (.jbool true) none = .jint 1 ∧
    serializeValue (.jbool false) none = .jint 0 ∧
    serializeValue (serializeValue (.jbytes [1, 2, 3]) none) none ≠
      serializeValue (.jbytes [1, 2, 3]) none := by
  refine ⟨rfl, rfl, ?_⟩
  intro h
  have h1 : serializeValue (serializeValue (.jbytes [1, 2, 3]) none) none =
      .jdict [("_binary", .jint 1), ("_format", .jstr "base64"),
              ("size", .jint 3), ("data", .jstr (base64Encode [1, 2, 3]))] := rfl
  have h2 : serializeValue (.jbytes [1, 2, 3]) none =
      .jdict [("_binary", .jbool true), ("_format", .jstr "base64"),
              ("size", .jint 3), ("data", .jstr (base64Encode [1, 2, 3]))] := rfl
  rw [h1, h2] at h
  simp at h

/-! ## Claim C8: engine-version resolution (`generate_file_snapshots`)

Translated from the version-resolution block:
```
if isinstance(unity_version, int):
    version_tuple = (unity_version, 0, 0, 0)
elif isinstance(unity_version, tuple):
    version_tuple = unity_version + (0,) * (4 - len(unity_version))
else:
    version_tuple = (int(str(unity_version).split('.')[0]), 0, 0, 0)
```
In Python, `(0,) * k` is empty for `k ≤ 0`, which is exactly `ℕ`
subtraction in `List.replicate (4 - t.length) 0`.  The string branch takes
the first dot-separated component and parses it with `int()` (modeled by
`parseDec` on the decimal forms that occur); a non-numeric component makes
`int()` raise, which the enclosing handler turns into a skipped bundle. -/

/-- The declared `assets_file.version`: an int, a tuple, or a string. -/
inductive UnityVersion where
  | vint (n : ℤ)
  | vtuple (t : List ℤ)
  | vstr (s : String)

/-- `str.split('.')[0]`: the prefix before the first dot. -/
def firstDotComponent (s : String) : String :=
  String.mk (s.data.takeWhile (fun c => c ≠ '.'))

/-- The version-resolution computation, with `Except` modeling the
exception thrown by `int()` on a non-numeric leading component. -/
def resolveVersion : UnityVersion → Except String (List ℤ)
  | .vint n => .ok [n, 0, 0, 0]
  | .vtuple t => .ok (t ++ List.replicate (4 - t.length) 0)
  | .vstr s =>
      match parseDec (firstDotComponent s) with
      | some m => .ok [m, 0, 0, 0]
      | none => .error "invalid literal for int() with base 10"

/-- C8 counterexample: a declared version tuple with five components is
passed through unchanged — the result has five components, not the fixed
four the claim states. -/
theorem resolveVersion_five_tuple_counterexample :
    resolveVersion (.vtuple [1, 2, 3, 4, 5]) = .ok [1, 2, 3, 4, 5] ∧
    ([(1 : ℤ), 2, 3, 4, 5].length = 4) = False := by
  constructor
  · rfl
  · simp

/-- C8 amended: an integer `v` resolves to `(v, 0, 0, 0)`; a tuple is
extended with zeros to length 4 — which yields a 4-component tuple exactly
when the input has at most 4 components, longer tuples passing through
unchanged — always preserving the original components as a prefix; and a
version string whose leading dot-separated component parses as an integer
`m` resolves to `(m, 0, 0, 0)`. -/
theorem resolveVersion_characterization :
    (∀ n : ℤ, resolveVersion (.vint n) = .ok [n, 0, 0, 0]) ∧
    (∀ t : List ℤ, resolveVersion (.vtuple t) =
        .ok (t ++ List.replicate (4 - t.length) 0)) ∧
    (∀ t : List ℤ, t.length ≤ 4 →
        (t ++ List.replicate (4 - t.length) 0).length = 4) ∧
    (∀ t : List ℤ, (t ++ List.replicate (4 - t.length) 0).take t.length = t) ∧
    (∀ (s : String) (m : ℤ), parseDec (firstDotComponent s) = some m →
        resolveVersion (.vstr s) = .ok [m, 0, 0, 0]) := by
  refine ⟨fun n => rfl, fun t => rfl, fun t ht => ?_, fun t => ?_, fun s m hm => ?_⟩
  · simp only [List.length_append, List.length_replicate]
    omega
  · simp
  · simp only [resolveVersion]
    rw [hm]

/-- C8 witness: the tuple `(2022, 3)` padded to `(2022, 3, 0, 0)` and the
version string `"2022.3.1f1"` resolved to `(2022, 0, 0, 0)`. -/
theorem resolveVersion_characterization_witness :
    resolveVersion (.vint 6) = .ok [6, 0, 0, 0] ∧
    resolveVersion (.vtuple [2022, 3]) = .ok [2022, 3, 0, 0] ∧
    (([(2022 : ℤ), 3].length ≤ 4) ∧
      ([(2022 : ℤ), 3] ++ List.replicate (4 - [(2022 : ℤ), 3].length) 0).length = 4) ∧
    (parseDec (firstDotComponent "2022.3.1f1") = some 2022 ∧
      resolveVersion (.vstr "2022.3.1f1") = .ok [2022, 0, 0, 0]) := by
  have h := resolveVersion_characterization
  refine ⟨h.1 6, ?_, ⟨by decide, h.2.2.1 [2022, 3] (by decide)⟩, ⟨by rfl, ?_⟩⟩
  · have := h.2.1 [2022, 3]
    simpa using this
  · exact h.2.2.2.2 "2022.3.1f1" 2022 (by rfl)

/-! ## The Snapshot Comparator (`compare_values`, test suite)

Translated from `tests/test_snapshot_validation.py`.  Branch order in the
source: skip-keyword check on the path, `None` handling, float tolerance,
list comparison, dict comparison over the union of key sets, and a basic
equality fallback with one string/int coercion exception.

Floats: Python computes `abs(val1 - val2) > 1e-6` in IEEE arithmetic; we
model the subtraction of finite floats exactly on ℚ and the special values
by the IEEE rules (any NaN operand propagates; `inf - inf` is NaN; a NaN
comparison is false). -/

/-- IEEE subtraction on the modeled floats (exact for finite values). -/
def pySub : PyFloat → PyFloat → PyFloat
  | .nan, _ => .nan
  | _, .nan => .nan
  | .finite a, .finite b => .finite (a - b)
  | .inf, .inf => .nan
  | .inf, _ => .inf
  | .ninf, .ninf => .nan
  | .ninf, _ => .ninf
  | .finite _, .inf => .ninf
  | .finite _, .ninf => .inf

/-- IEEE absolute value. -/
def pyAbs : PyFloat → PyFloat
  | .finite a => .finite |a|
  | .nan => .nan
  | _ => .inf

/-- IEEE `> c` against a finite constant: false for NaN. -/
def pyGtQ : PyFloat → ℚ → Bool
  | .finite a, c => a > c
  | .nan, _ => false
  | .inf, _ => true
  | .ninf, _ => false

/-- IEEE `≤ c` against a finite constant: false for NaN. -/
def pyLeQ : PyFloat → ℚ → Bool
  | .finite a, c => a ≤ c
  | .nan, _ => false
  | .inf, _ => false
  | .ninf, _ => true

/-- The comparator's float tolerance, `1e-6`. -/
def floatTol : ℚ := 1 / 1000000

/-- `abs(val1 - val2) > 1e-6`. -/
def floatDiffExceeds (f1 f2 : PyFloat) : Bool := pyGtQ (pyAbs (pySub f1 f2)) floatTol

theorem lookupD_sizeOf {d : List (String × JVal)} {k : String} {w : JVal}
    (h : lookupD d k = some w) : sizeOf w < sizeOf d := by
  induction d with
  | nil => simp [lookupD] at h
  | cons p rest ih =>
    obtain ⟨k', v⟩ := p
    by_cases hk : k' = k
    · simp only [lookupD, if_pos hk, Option.some.injEq] at h
      subst h
      simp only [List.cons.sizeOf_spec, Prod.mk.sizeOf_spec]
      omega
    · simp only [lookupD, if_neg hk] at h
      have := ih h
      simp only [List.cons.sizeOf_spec]
      omega

/-- Python numeric equality between an integer and a float. -/
def intFloatEq (n : ℤ) (f : PyFloat) : Bool :=
  match f with
  | .finite q => (n : ℚ) == q
  | _ => false

/-- Python `==` on the two float models. -/
def floatEq : PyFloat → PyFloat → Bool
  | .finite a, .finite b => a == b
  | .inf, .inf => true
  | .ninf, .ninf => true
  | _, _ => false

mutual

/-- Python `==` on the modeled value universe (numeric cross-type equality
including bools, deep equality on containers, NaN unequal to everything). -/
def pyEq : JVal → JVal → Bool
  | .jnull, .jnull => true
  | .jbool a, .jbool b => a == b
  | .jbool a, .jint m => boolInt a == m
  | .jint n, .jbool b => n == boolInt b
  | .jbool a, .jfloat f => intFloatEq (boolInt a) f
  | .jfloat f, .jbool b => intFloatEq (boolInt b) f
  | .jint n, .jint m => n == m
  | .jint n, .jfloat f => intFloatEq n f
  | .jfloat f, .jint n => intFloatEq n f
  | .jfloat f, .jfloat g => floatEq f g
  | .jstr s, .jstr t => s == t
  | .jbytes a, .jbytes b => a == b
  | .jlist xs, .jlist ys => pyEqList xs ys
  | .jdict d1, .jdict d2 => pyEqDictSub d1 d2 && pyEqDictSub d2 d1
  | _, _ => false
termination_by v1 v2 => sizeOf v1 + sizeOf v2
decreasing_by
  all_goals simp_wf
  all_goals try simp only [JVal.jlist.sizeOf_spec, JVal.jdict.sizeOf_spec,
    List.cons.sizeOf_spec, Prod.mk.sizeOf_spec]
  all_goals omega

def pyEqList : List JVal → List JVal → Bool
  | [], [] => true
  | x :: xs, y :: ys => pyEq x y && pyEqList xs ys
  | _, _ => false
termination_by l1 l2 => sizeOf l1 + sizeOf l2
decreasing_by
  all_goals simp_wf
  all_goals try simp only [List.cons.sizeOf_spec]
  all_goals omega

def pyEqDictSub : List (String × JVal) → List (String × JVal) → Bool
  | [], _ => true
  | (k, v) :: rest, d2 =>
      (match h : lookupD d2 k with
       | some w => pyEq v w
       | none => false) && pyEqDictSub rest d2
termination_by d1 d2 => sizeOf d1 + sizeOf d2
decreasing_by
  all_goals simp_wf
  all_goals try simp only [List.cons.sizeOf_spec, Prod.mk.sizeOf_spec]
  all_goals first
    | omega
    | (have hlk := lookupD_sizeOf h
       omega)

end

/-- Python `str(value)` as used in mismatch messages.  Scalars render
exactly; the rendering of floats and containers inside a message is
abstracted, since messages are only ever inspected for presence (the
comparator's contract is about which mismatches exist, not their text). -/
def pyStrApprox : JVal → String
  | .jnull => "None"
  | .jbool b => if b then "True" else "False"
  | .jint n => intStr n
  | .jstr s => s
  | _ => "<value>"

/-- The one scalar coercion: `val1` a string equal to `str(val2)` where
`val2` is an int (which in Python includes bools: `str(True)` is
`"True"`). -/
def strIntCoerce : JVal → JVal → Bool
  | .jstr s, .jint n => s == intStr n
  | .jstr s, .jbool b => s == (if b then "True" else "False")
  | _, _ => false

/-- Does `needle` occur as a contiguous substring of `hay`? -/
def containsSub (needle hay : List Char) : Bool :=
  hay.tails.any (fun t => needle.isPrefixOf t)

/-- `any(key in path for key in {"timestamp", "file_path"})`. -/
def skipPath (path : String) : Bool :=
  containsSub "timestamp".data path.data || containsSub "file_path".data path.data

/-- Union of the two dicts' key lists (Python iterates
`set(val1.keys()) | set(val2.keys())`; only membership matters for the
comparator's emptiness, so a deterministic enumeration is used). -/
def unionKeys (d1 d2 : List (String × JVal)) : List String :=
  d1.map Prod.fst ++ (d2.map Prod.fst).filter (fun k => !(d1.map Prod.fst).contains k)

mutual

/-- `compare_values(val1, val2, path)`: the list of mismatch messages. -/
def compareValues (v1 v2 : JVal) (path : String) : List String :=
  if skipPath path then []
  else
    match v1, v2 with
    | .jnull, .jnull => []
    | .jnull, _ => [path ++ ": " ++ pyStrApprox v1 ++ " != " ++ pyStrApprox v2]
    | _, .jnull => [path ++ ": " ++ pyStrApprox v1 ++ " != " ++ pyStrApprox v2]
    | .jfloat f1, .jfloat f2 =>
        if floatDiffExceeds f1 f2 then
          [path ++ ": float values differ by more than 1e-6"]
        else []
    | .jlist l1, .jlist l2 =>
        if l1.length ≠ l2.length then
          [path ++ ": list length " ++ natStr l1.length ++ " != " ++ natStr l2.length]
        else compareLists l1 l2 path 0
    | .jdict d1, .jdict d2 => compareKeys (unionKeys d1 d2) d1 d2 path
    | a, b =>
        if pyEq a b then []
        else if strIntCoerce a b || strIntCoerce b a then []
        else [path ++ ": " ++ pyStrApprox a ++ " != " ++ pyStrApprox b]
termination_by (sizeOf v1 + sizeOf v2, 1, 0)

/-- Element-wise comparison of equal-length lists with index-qualified
paths. -/
def compareLists (l1 l2 : List JVal) (path : String) (i : ℕ) : List String :=
  match l1, l2 with
  | x :: xs, y :: ys =>
      compareValues x y (path ++ "[" ++ natStr i ++ "]") ++
        compareLists xs ys path (i + 1)
  | _, _ => []
termination_by (sizeOf l1 + sizeOf l2, 0, 0)
decreasing_by
  all_goals simp_wf
  all_goals try simp only [List.cons.sizeOf_spec]
  · left; omega
  · left; omega

/-- One key of the union: missing-key reports or recursive comparison. -/
def comparePerKey (k : String) (d1 d2 : List (String × JVal)) (path : String) :
    List String :=
  let kp := if path = "" then k else path ++ "." ++ k
  match h1 : lookupD d1 k, h2 : lookupD d2 k with
  | none, _ => [kp ++ ": missing in first"]
  | some _, none => [kp ++ ": missing in second"]
  | some a, some b => compareValues a b kp
termination_by (sizeOf d1 + sizeOf d2, 1, 0)
decreasing_by
  all_goals simp_wf
  have ha := lookupD_sizeOf h1
  have hb := lookupD_sizeOf h2
  left
  omega

/-- Comparison over an explicit key list. -/
def compareKeys (ks : List String) (d1 d2 : List (String × JVal)) (path : String) :
    List String :=
  match ks with
  | [] => []
  | k :: rest => comparePerKey k d1 d2 path ++ compareKeys rest d1 d2 path
termination_by (sizeOf d1 + sizeOf d2, 2, ks.length)

end

/-! ### Comparator lemmas -/

theorem beqComm {α : Type} [BEq α] [LawfulBEq α] (a b : α) : (a == b) = (b == a) := by
  by_cases h : a = b
  · subst h; rfl
  · rw [beq_eq_false_iff_ne.mpr h, beq_eq_false_iff_ne.mpr (fun hc => h hc.symm)]

theorem floatDiffExceeds_self (f : PyFloat) : floatDiffExceeds f f = false := by
  cases f with
  | finite q =>
    simp only [floatDiffExceeds, pySub, pyAbs, pyGtQ, sub_self, abs_zero, floatTol]
    simp
  | nan => rfl
  | inf => rfl
  | ninf => rfl

theorem floatDiffExceeds_comm (f1 f2 : PyFloat) :
    floatDiffExceeds f1 f2 = floatDiffExceeds f2 f1 := by
  cases f1 <;> cases f2 <;>
    simp only [floatDiffExceeds, pySub, pyAbs, pyGtQ] <;>
    rw [abs_sub_comm]

theorem compare_skip {path : String} (hs : skipPath path = true) (v1 v2 : JVal) :
    compareValues v1 v2 path = [] := by
  rw [compareValues.eq_def]
  rw [if_pos hs]

theorem lookupD_mem {d : List (String × JVal)} {k : String} {w : JVal}
    (h : lookupD d k = some w) : (k, w) ∈ d := by
  induction d with
  | nil => simp [lookupD] at h
  | cons p rest ih =>
    obtain ⟨k', v⟩ := p
    by_cases hk : k' = k
    · subst hk
      have hv : v = w := by simpa [lookupD] using h
      rw [← hv]
      exact List.mem_cons_self _ _
    · simp only [lookupD, if_neg hk] at h
      exact List.mem_cons_of_mem _ (ih h)

theorem lookupD_isSome_of_mem_keys {d : List (String × JVal)} {k : String}
    (h : k ∈ d.map Prod.fst) : ∃ w, lookupD d k = some w := by
  induction d with
  | nil => simp at h
  | cons p rest ih =>
    obtain ⟨k', v⟩ := p
    by_cases hk : k' = k
    · subst hk
      exact ⟨v, by simp [lookupD]⟩
    · simp only [List.map_cons, List.mem_cons] at h
      rcases h with h | h
      · exact absurd h.symm hk
      · obtain ⟨w, hw⟩ := ih h
        exact ⟨w, by simp [lookupD, if_neg hk, hw]⟩

theorem lookupD_eq_none_of_not_mem_keys {d : List (String × JVal)} {k : String}
    (h : ¬ k ∈ d.map Prod.fst) : lookupD d k = none := by
  induction d with
  | nil => rfl
  | cons p rest ih =>
    obtain ⟨k', v⟩ := p
    simp only [List.map_cons, List.mem_cons, not_or] at h
    obtain ⟨h1, h2⟩ := h
    have hne : ¬ k' = k := fun hc => h1 hc.symm
    simp only [lookupD]
    rw [if_neg hne]
    exact ih h2

theorem contains_true_iff (l : List String) (a : String) :
    l.contains a = true ↔ a ∈ l := by
  simp

theorem contains_false_iff (l : List String) (a : String) :
    l.contains a = false ↔ a ∉ l := by
  rw [← Bool.not_eq_true]
  exact not_congr (contains_true_iff l a)

theorem mem_unionKeys {d1 d2 : List (String × JVal)} {k : String} :
    k ∈ unionKeys d1 d2 ↔ k ∈ d1.map Prod.fst ∨ k ∈ d2.map Prod.fst := by
  unfold unionKeys
  simp only [List.mem_append, List.mem_filter, Bool.not_eq_eq_eq_not, Bool.not_true,
    contains_false_iff]
  constructor
  · rintro (h | ⟨h, -⟩)
    · exact Or.inl h
    · exact Or.inr h
  · rintro (h | h)
    · exact Or.inl h
    · by_cases h1 : k ∈ d1.map Prod.fst
      · exact Or.inl h1
      · refine Or.inr ⟨h, ?_⟩
        simpa using h1

theorem floatEq_comm (f g : PyFloat) : floatEq f g = floatEq g f := by
  cases f <;> cases g <;> simp only [floatEq] <;> exact beqComm _ _

theorem pyEqList_symm_of (xs : List JVal)
    (IH : ∀ x ∈ xs, ∀ y, pyEq x y = pyEq y x) :
    ∀ ys, pyEqList xs ys = pyEqList ys xs := by
  induction xs with
  | nil => intro ys; cases ys <;> simp [pyEqList]
  | cons x xs ih =>
    intro ys
    cases ys with
    | nil => simp [pyEqList]
    | cons y ys =>
      simp only [pyEqList]
      rw [IH x (List.mem_cons_self _ _) y,
        ih (fun z hz => IH z (List.mem_cons_of_mem _ hz)) ys]

theorem pyEq_symm : ∀ a b : JVal, pyEq a b = pyEq b a := by
  intro a
  induction a using JVal.inductionOn with
  | hnull => intro b; cases b <;> simp [pyEq]
  | hbool x =>
    intro b
    cases b <;> simp only [pyEq]
    · exact beqComm x _
    · exact beqComm _ _
  | hint n =>
    intro b
    cases b <;> simp only [pyEq]
    · rw [beqComm]
    · exact beqComm n _
  | hfloat f =>
    intro b
    cases b <;> simp only [pyEq]
    exact floatEq_comm f _
  | hstr s =>
    intro b
    cases b <;> simp only [pyEq]
    exact beqComm s _
  | hbytes bs =>
    intro b
    cases b <;> simp only [pyEq]
    exact beqComm bs _
  | hlist xs ihx =>
    intro b
    cases b <;> simp only [pyEq]
    exact pyEqList_symm_of xs ihx _
  | hdict kvs ihd =>
    intro b
    cases b <;> simp only [pyEq]
    exact Bool.and_comm _ _

/-- Is the value `None`? -/
def isNullB : JVal → Bool
  | .jnull => true
  | _ => false

/-- Does a pair of values reach the comparator's basic-equality branch
(neither is `None`, and they are not both floats, both lists, or both
dicts)? -/
def basicPair : JVal → JVal → Bool
  | .jnull, _ => false
  | _, .jnull => false
  | .jfloat _, .jfloat _ => false
  | .jlist _, .jlist _ => false
  | .jdict _, .jdict _ => false
  | _, _ => true

theorem comparePerKey_some_some {k : String} {d1 d2 : List (String × JVal)}
    {a b : JVal} (path : String)
    (h1 : lookupD d1 k = some a) (h2 : lookupD d2 k = some b) :
    comparePerKey k d1 d2 path =
      compareValues a b (if path = "" then k else path ++ "." ++ k) := by
  rw [comparePerKey.eq_def]
  split <;> split <;> simp_all

theorem comparePerKey_ne_nil_first {k : String} {d1 d2 : List (String × JVal)}
    (path : String) (h1 : lookupD d1 k = none) :
    comparePerKey k d1 d2 path ≠ [] := by
  rw [comparePerKey.eq_def]
  split <;> split <;> simp_all

theorem comparePerKey_ne_nil_second {k : String} {d1 d2 : List (String × JVal)}
    {a : JVal} (path : String)
    (h1 : lookupD d1 k = some a) (h2 : lookupD d2 k = none) :
    comparePerKey k d1 d2 path ≠ [] := by
  rw [comparePerKey.eq_def]
  split <;> split <;> simp_all

theorem compareValues_null_null (path : String) :
    compareValues .jnull .jnull path = [] := by
  rw [compareValues.eq_def]
  split <;> rfl

theorem compareValues_null_left_ne (v : JVal) (path : String)
    (hs : skipPath path = false) (hv : isNullB v = false) :
    compareValues .jnull v path ≠ [] := by
  cases v <;>
    first
    | exact Bool.noConfusion hv
    | (rw [compareValues.eq_def]; rw [if_neg (by simp [hs])]; simp)

theorem compareValues_null_right_ne (v : JVal) (path : String)
    (hs : skipPath path = false) (hv : isNullB v = false) :
    compareValues v .jnull path ≠ [] := by
  cases v <;>
    first
    | exact Bool.noConfusion hv
    | (rw [compareValues.eq_def]; rw [if_neg (by simp [hs])]; simp)

theorem compareValues_float_eq (f1 f2 : PyFloat) (path : String)
    (hs : skipPath path = false) :
    compareValues (.jfloat f1) (.jfloat f2) path =
      if floatDiffExceeds f1 f2 then
        [path ++ ": float values differ by more than 1e-6"]
      else [] := by
  rw [compareValues.eq_def]
  rw [if_neg (by simp [hs])]

theorem compareValues_list_eq (l1 l2 : List JVal) (path : String)
    (hs : skipPath path = false) :
    compareValues (.jlist l1) (.jlist l2) path =
      if l1.length ≠ l2.length then
        [path ++ ": list length " ++ natStr l1.length ++ " != " ++ natStr l2.length]
      else compareLists l1 l2 path 0 := by
  rw [compareValues.eq_def]
  rw [if_neg (by simp [hs])]

theorem compareValues_dict_eq (d1 d2 : List (String × JVal)) (path : String)
    (hs : skipPath path = false) :
    compareValues (.jdict d1) (.jdict d2) path =
      compareKeys (unionKeys d1 d2) d1 d2 path := by
  rw [compareValues.eq_def]
  rw [if_neg (by simp [hs])]

theorem compareValues_eq_basic (a b : JVal) (path : String)
    (hs : skipPath path = false) (hb : basicPair a b = true) :
    compareValues a b path =
      (if pyEq a b then []
       else if strIntCoerce a b || strIntCoerce b a then []
       else [path ++ ": " ++ pyStrApprox a ++ " != " ++ pyStrApprox b]) := by
  cases a <;> cases b <;>
    first
    | exact Bool.noConfusion hb
    | (rw [compareValues.eq_def]; rw [if_neg (by simp [hs])]; try rfl)

theorem compare_basic_nil_iff (a b : JVal) (path : String)
    (hs : skipPath path = false) (hb : basicPair a b = true) :
    compareValues a b path = [] ↔
      (pyEq a b || strIntCoerce a b || strIntCoerce b a) = true := by
  rw [compareValues_eq_basic a b path hs hb]
  split_ifs with h1 h2
  · simp [h1]
  · simp [h1, h2]
  · simp [h1, h2]

theorem compareLists_self_of (l : List JVal)
    (IH : ∀ x ∈ l, ∀ p, compareValues x x p = []) :
    ∀ (path : String) (i : ℕ), compareLists l l path i = [] := by
  induction l with
  | nil => intro path i; simp [compareLists]
  | cons x xs ih =>
    intro path i
    simp only [compareLists, List.append_eq_nil]
    exact ⟨IH x (List.mem_cons_self _ _) _,
      ih (fun z hz p => IH z (List.mem_cons_of_mem _ hz) p) path (i + 1)⟩

theorem compareLists_symm_of :
    ∀ (l1 l2 : List JVal) (path : String) (i : ℕ),
    (∀ x ∈ l1, ∀ y ∈ l2, ∀ p,
      (compareValues x y p = [] ↔ compareValues y x p = [])) →
    (compareLists l1 l2 path i = [] ↔ compareLists l2 l1 path i = []) := by
  intro l1
  induction l1 with
  | nil => intro l2 path i _; cases l2 <;> simp [compareLists]
  | cons x xs ih =>
    intro l2 path i h
    cases l2 with
    | nil => simp [compareLists]
    | cons y ys =>
      simp only [compareLists, List.append_eq_nil]
      exact and_congr
        (h x (List.mem_cons_self _ _) y (List.mem_cons_self _ _) _)
        (ih ys path (i + 1)
          (fun a ha b hb p =>
            h a (List.mem_cons_of_mem _ ha) b (List.mem_cons_of_mem _ hb) p))

theorem compareKeys_nil_iff (ks : List String) (d1 d2 : List (String × JVal))
    (path : String) :
    compareKeys ks d1 d2 path = [] ↔
      ∀ k ∈ ks, comparePerKey k d1 d2 path = [] := by
  induction ks with
  | nil => simp [compareKeys]
  | cons k rest ih =>
    simp only [compareKeys, List.append_eq_nil, ih, List.forall_mem_cons]

theorem comparePerKey_symm_of (k : String) (d1 d2 : List (String × JVal))
    (path : String)
    (IH : ∀ a b, lookupD d1 k = some a → lookupD d2 k = some b → ∀ p,
      (compareValues a b p = [] ↔ compareValues b a p = [])) :
    (comparePerKey k d1 d2 path = [] ↔ comparePerKey k d2 d1 path = []) := by
  match h1 : lookupD d1 k, h2 : lookupD d2 k with
  | none, none =>
    exact iff_of_false (comparePerKey_ne_nil_first path h1)
      (comparePerKey_ne_nil_first path h2)
  | none, some b =>
    exact iff_of_false (comparePerKey_ne_nil_first path h1)
      (comparePerKey_ne_nil_second path h2 h1)
  | some a, none =>
    exact iff_of_false (comparePerKey_ne_nil_second path h1 h2)
      (comparePerKey_ne_nil_first path h2)
  | some a, some b =>
    rw [comparePerKey_some_some path h1 h2, comparePerKey_some_some path h2 h1]
    exact IH a b h1 h2 _

/-- The comparator is reflexive: comparing any tree to itself yields no
mismatches. -/
theorem compareValues_refl : ∀ (v : JVal) (path : String),
    compareValues v v path = [] := by
  intro v
  induction v using JVal.inductionOn with
  | hnull => exact compareValues_null_null
  | hbool b =>
    intro path
    by_cases hs : skipPath path = true
    · exact compare_skip hs _ _
    · rw [compareValues_eq_basic (.jbool b) (.jbool b) path (by simpa using hs) rfl]
      simp [pyEq]
  | hint n =>
    intro path
    by_cases hs : skipPath path = true
    · exact compare_skip hs _ _
    · rw [compareValues_eq_basic (.jint n) (.jint n) path (by simpa using hs) rfl]
      simp [pyEq]
  | hfloat f =>
    intro path
    by_cases hs : skipPath path = true
    · exact compare_skip hs _ _
    · rw [compareValues_float_eq _ _ _ (by simpa using hs), floatDiffExceeds_self]
      rfl
  | hstr s =>
    intro path
    by_cases hs : skipPath path = true
    · exact compare_skip hs _ _
    · rw [compareValues_eq_basic (.jstr s) (.jstr s) path (by simpa using hs) rfl]
      simp [pyEq]
  | hbytes bs =>
    intro path
    by_cases hs : skipPath path = true
    · exact compare_skip hs _ _
    · rw [compareValues_eq_basic (.jbytes bs) (.jbytes bs) path (by simpa using hs) rfl]
      simp [pyEq]
  | hlist xs ih =>
    intro path
    by_cases hs : skipPath path = true
    · exact compare_skip hs _ _
    · rw [compareValues_list_eq _ _ _ (by simpa using hs)]
      rw [if_neg (by simp)]
      exact compareLists_self_of xs ih path 0
  | hdict kvs ih =>
    intro path
    by_cases hs : skipPath path = true
    · exact compare_skip hs _ _
    · rw [compareValues_dict_eq _ _ _ (by simpa using hs)]
      rw [compareKeys_nil_iff]
      intro k hk
      have hmem : k ∈ kvs.map Prod.fst := by
        rcases mem_unionKeys.mp hk with h | h <;> exact h
      obtain ⟨w, hw⟩ := lookupD_isSome_of_mem_keys hmem
      rw [comparePerKey_some_some _ hw hw]
      exact ih (k, w) (lookupD_mem hw) _

/-- The comparator's verdict (mismatch-freeness) is symmetric. -/
theorem compareValues_symm : ∀ (v1 v2 : JVal) (path : String),
    (compareValues v1 v2 path = [] ↔ compareValues v2 v1 path = []) := by
  have main : ∀ (N : ℕ) (v1 v2 : JVal), sizeOf v1 + sizeOf v2 ≤ N →
      ∀ path, (compareValues v1 v2 path = [] ↔ compareValues v2 v1 path = []) := by
    intro N
    induction N using Nat.strong_induction_on with
    | _ N ihN =>
      intro v1 v2 hN path
      by_cases hsk : skipPath path = true
      · rw [compare_skip hsk, compare_skip hsk]
      · have hs : skipPath path = false := by simpa using hsk
        match v1, v2 with
        | .jnull, .jnull => exact Iff.rfl
        | .jnull, .jbool b =>
          exact iff_of_false (compareValues_null_left_ne _ _ hs rfl)
            (compareValues_null_right_ne _ _ hs rfl)
        | .jnull, .jint n =>
          exact iff_of_false (compareValues_null_left_ne _ _ hs rfl)
            (compareValues_null_right_ne _ _ hs rfl)
        | .jnull, .jfloat f =>
          exact iff_of_false (compareValues_null_left_ne _ _ hs rfl)
            (compareValues_null_right_ne _ _ hs rfl)
        | .jnull, .jstr s =>
          exact iff_of_false (compareValues_null_left_ne _ _ hs rfl)
            (compareValues_null_right_ne _ _ hs rfl)
        | .jnull, .jbytes bs =>
          exact iff_of_false (compareValues_null_left_ne _ _ hs rfl)
            (compareValues_null_right_ne _ _ hs rfl)
        | .jnull, .jlist xs =>
          exact iff_of_false (compareValues_null_left_ne _ _ hs rfl)
            (compareValues_null_right_ne _ _ hs rfl)
        | .jnull, .jdict kvs =>
          exact iff_of_false (compareValues_null_left_ne _ _ hs rfl)
            (compareValues_null_right_ne _ _ hs rfl)
        | .jbool b, .jnull =>
          exact iff_of_false (compareValues_null_right_ne _ _ hs rfl)
            (compareValues_null_left_ne _ _ hs rfl)
        | .jint n, .jnull =>
          exact iff_of_false (compareValues_null_right_ne _ _ hs rfl)
            (compareValues_null_left_ne _ _ hs rfl)
        | .jfloat f, .jnull =>
          exact iff_of_false (compareValues_null_right_ne _ _ hs rfl)
            (compareValues_null_left_ne _ _ hs rfl)
        | .jstr s, .jnull =>
          exact iff_of_false (compareValues_null_right_ne _ _ hs rfl)
            (compareValues_null_left_ne _ _ hs rfl)
        | .jbytes bs, .jnull =>
          exact iff_of_false (compareValues_null_right_ne _ _ hs rfl)
            (compareValues_null_left_ne _ _ hs rfl)
        | .jlist xs, .jnull =>
          exact iff_of_false (compareValues_null_right_ne _ _ hs rfl)
            (compareValues_null_left_ne _ _ hs rfl)
        | .jdict kvs, .jnull =>
          exact iff_of_false (compareValues_null_right_ne _ _ hs rfl)
            (compareValues_null_left_ne _ _ hs rfl)
        | .jfloat f1, .jfloat f2 =>
          rw [compareValues_float_eq _ _ _ hs, compareValues_float_eq _ _ _ hs,
            floatDiffExceeds_comm]
        | .jlist l1, .jlist l2 =>
          rw [compareValues_list_eq _ _ _ hs, compareValues_list_eq _ _ _ hs]
          by_cases hlen : l1.length = l2.length
          · rw [if_neg (by simp [hlen]), if_neg (by simp [hlen])]
            refine compareLists_symm_of l1 l2 path 0 (fun x hx y hy p => ?_)
            have hx' := JVal.sizeOf_lt_of_mem_list hx
            have hy' := JVal.sizeOf_lt_of_mem_list hy
            exact ihN (sizeOf x + sizeOf y) (by omega) x y le_rfl p
          · have hlen2 : l2.length ≠ l1.length := fun hc => hlen hc.symm
            rw [if_pos hlen, if_pos hlen2]
            exact iff_of_false (by simp) (by simp)
        | .jdict d1, .jdict d2 =>
          rw [compareValues_dict_eq _ _ _ hs, compareValues_dict_eq _ _ _ hs,
            compareKeys_nil_iff, compareKeys_nil_iff]
          have hper : ∀ k, (comparePerKey k d1 d2 path = [] ↔
              comparePerKey k d2 d1 path = []) := by
            intro k
            refine comparePerKey_symm_of k d1 d2 path (fun a b ha hb p => ?_)
            have ha' := lookupD_sizeOf ha
            have hb' := lookupD_sizeOf hb
            have hsz1 : sizeOf (JVal.jdict d1) = 1 + sizeOf d1 := by
              simp [JVal.jdict.sizeOf_spec]
            have hsz2 : sizeOf (JVal.jdict d2) = 1 + sizeOf d2 := by
              simp [JVal.jdict.sizeOf_spec]
            exact ihN (sizeOf a + sizeOf b) (by omega) a b le_rfl p
          constructor
          · intro h k hk
            exact (hper k).mp
              (h k (mem_unionKeys.mpr (mem_unionKeys.mp hk).symm))
          · intro h k hk
            exact (hper k).mpr
              (h k (mem_unionKeys.mpr (mem_unionKeys.mp hk).symm))
        | .jbool x, .jbool y =>
          rw [compare_basic_nil_iff (.jbool x) (.jbool y) path hs rfl,
            compare_basic_nil_iff (.jbool y) (.jbool x) path hs rfl, pyEq_symm]
          simp only [Bool.or_eq_true]
          tauto
        | .jbool x, .jint y =>
          rw [compare_basic_nil_iff (.jbool x) (.jint y) path hs rfl,
            compare_basic_nil_iff (.jint y) (.jbool x) path hs rfl, pyEq_symm]
          simp only [Bool.or_eq_true]
          tauto
        | .jbool x, .jfloat y =>
          rw [compare_basic_nil_iff (.jbool x) (.jfloat y) path hs rfl,
            compare_basic_nil_iff (.jfloat y) (.jbool x) path hs rfl, pyEq_symm]
          simp only [Bool.or_eq_true]
          tauto
        | .jbool x, .jstr y =>
          rw [compare_basic_nil_iff (.jbool x) (.jstr y) path hs rfl,
            compare_basic_nil_iff (.jstr y) (.jbool x) path hs rfl, pyEq_symm]
          simp only [Bool.or_eq_true]
          tauto
        | .jbool x, .jbytes y =>
          rw [compare_basic_nil_iff (.jbool x) (.jbytes y) path hs rfl,
            compare_basic_nil_iff (.jbytes y) (.jbool x) path hs rfl, pyEq_symm]
          simp only [Bool.or_eq_true]
          tauto
        | .jbool x, .jlist y =>
          rw [compare_basic_nil_iff (.jbool x) (.jlist y) path hs rfl,
            compare_basic_nil_iff (.jlist y) (.jbool x) path hs rfl, pyEq_symm]
          simp only [Bool.or_eq_true]
          tauto
        | .jbool x, .jdict y =>
          rw [compare_basic_nil_iff (.jbool x) (.jdict y) path hs rfl,
            compare_basic_nil_iff (.jdict y) (.jbool x) path hs rfl, pyEq_symm]
          simp only [Bool.or_eq_true]
          tauto
        | .jint x, .jbool y =>
          rw [compare_basic_nil_iff (.jint x) (.jbool y) path hs rfl,
            compare_basic_nil_iff (.jbool y) (.jint x) path hs rfl, pyEq_symm]
          simp only [Bool.or_eq_true]
          tauto
        | .jint x, .jint y =>
          rw [compare_basic_nil_iff (.jint x) (.jint y) path hs rfl,
            compare_basic_nil_iff (.jint y) (.jint x) path hs rfl, pyEq_symm]
          simp only [Bool.or_eq_true]
          tauto
        | .jint x, .jfloat y =>
          rw [compare_basic_nil_iff (.jint x) (.jfloat y) path hs rfl,
            compare_basic_nil_iff (.jfloat y) (.jint x) path hs rfl, pyEq_symm]
          simp only [Bool.or_eq_true]
          tauto
        | .jint x, .jstr y =>
          rw [compare_basic_nil_iff (.jint x) (.jstr y) path hs rfl,
            compare_basic_nil_iff (.jstr y) (.jint x) path hs rfl, pyEq_symm]
          simp only [Bool.or_eq_true]
          tauto
        | .jint x, .jbytes y =>
          rw [compare_basic_nil_iff (.jint x) (.jbytes y) path hs rfl,
            compare_basic_nil_iff (.jbytes y) (.jint x) path hs rfl, pyEq_symm]
          simp only [Bool.or_eq_true]
          tauto
        | .jint x, .jlist y =>
          rw [compare_basic_nil_iff (.jint x) (.jlist y) path hs rfl,
            compare_basic_nil_iff (.jlist y) (.jint x) path hs rfl, pyEq_symm]
          simp only [Bool.or_eq_true]
          tauto
        | .jint x, .jdict y =>
          rw [compare_basic_nil_iff (.jint x) (.jdict y) path hs rfl,
            compare_basic_nil_iff (.jdict y) (.jint x) path hs rfl, pyEq_symm]
          simp only [Bool.or_eq_true]
          tauto
        | .jfloat x, .jbool y =>
          rw [compare_basic_nil_iff (.jfloat x) (.jbool y) path hs rfl,
            compare_basic_nil_iff (.jbool y) (.jfloat x) path hs rfl, pyEq_symm]
          simp only [Bool.or_eq_true]
          tauto
        | .jfloat x, .jint y =>
          rw [compare_basic_nil_iff (.jfloat x) (.jint y) path hs rfl,
            compare_basic_nil_iff (.jint y) (.jfloat x) path hs rfl, pyEq_symm]
          simp only [Bool.or_eq_true]
          tauto
        | .jfloat x, .jstr y =>
          rw [compare_basic_nil_iff (.jfloat x) (.jstr y) path hs rfl,
            compare_basic_nil_iff (.jstr y) (.jfloat x) path hs rfl, pyEq_symm]
          simp only [Bool.or_eq_true]
          tauto
        | .jfloat x, .jbytes y =>
          rw [compare_basic_nil_iff (.jfloat x) (.jbytes y) path hs rfl,
            compare_basic_nil_iff (.jbytes y) (.jfloat x) path hs rfl, pyEq_symm]
          simp only [Bool.or_eq_true]
          tauto
        | .jfloat x, .jlist y =>
          rw [compare_basic_nil_iff (.jfloat x) (.jlist y) path hs rfl,
            compare_basic_nil_iff (.jlist y) (.jfloat x) path hs rfl, pyEq_symm]
          simp only [Bool.or_eq_true]
          tauto
        | .jfloat x, .jdict y =>
          rw [compare_basic_nil_iff (.jfloat x) (.jdict y) path hs rfl,
            compare_basic_nil_iff (.jdict y) (.jfloat x) path hs rfl, pyEq_symm]
          simp only [Bool.or_eq_true]
          tauto
        | .jstr x, .jbool y =>
          rw [compare_basic_nil_iff (.jstr x) (.jbool y) path hs rfl,
            compare_basic_nil_iff (.jbool y) (.jstr x) path hs rfl, pyEq_symm]
          simp only [Bool.or_eq_true]
          tauto
        | .jstr x, .jint y =>
          rw [compare_basic_nil_iff (.jstr x) (.jint y) path hs rfl,
            compare_basic_nil_iff (.jint y) (.jstr x) path hs rfl, pyEq_symm]
          simp only [Bool.or_eq_true]
          tauto
        | .jstr x, .jfloat y =>
          rw [compare_basic_nil_iff (.jstr x) (.jfloat y) path hs rfl,
            compare_basic_nil_iff (.jfloat y) (.jstr x) path hs rfl, pyEq_symm]
          simp only [Bool.or_eq_true]
          tauto
        | .jstr x, .jstr y =>
          rw [compare_basic_nil_iff (.jstr x) (.jstr y) path hs rfl,
            compare_basic_nil_iff (.jstr y) (.jstr x) path hs rfl, pyEq_symm]
          simp only [Bool.or_eq_true]
          tauto
        | .jstr x, .jbytes y =>
          rw [compare_basic_nil_iff (.jstr x) (.jbytes y) path hs rfl,
            compare_basic_nil_iff (.jbytes y) (.jstr x) path hs rfl, pyEq_symm]
          simp only [Bool.or_eq_true]
          tauto
        | .jstr x, .jlist y =>
          rw [compare_basic_nil_iff (.jstr x) (.jlist y) path hs rfl,
            compare_basic_nil_iff (.jlist y) (.jstr x) path hs rfl, pyEq_symm]
          simp only [Bool.or_eq_true]
          tauto
        | .jstr x, .jdict y =>
          rw [compare_basic_nil_iff (.jstr x) (.jdict y) path hs rfl,
            compare_basic_nil_iff (.jdict y) (.jstr x) path hs rfl, pyEq_symm]
          simp only [Bool.or_eq_true]
          tauto
        | .jbytes x, .jbool y =>
          rw [compare_basic_nil_iff (.jbytes x) (.jbool y) path hs rfl,
            compare_basic_nil_iff (.jbool y) (.jbytes x) path hs rfl, pyEq_symm]
          simp only [Bool.or_eq_true]
          tauto
        | .jbytes x, .jint y =>
          rw [compare_basic_nil_iff (.jbytes x) (.jint y) path hs rfl,
            compare_basic_nil_iff (.jint y) (.jbytes x) path hs rfl, pyEq_symm]
          simp only [Bool.or_eq_true]
          tauto
        | .jbytes x, .jfloat y =>
          rw [compare_basic_nil_iff (.jbytes x) (.jfloat y) path hs rfl,
            compare_basic_nil_iff (.jfloat y) (.jbytes x) path hs rfl, pyEq_symm]
          simp only [Bool.or_eq_true]
          tauto
        | .jbytes x, .jstr y =>
          rw [compare_basic_nil_iff (.jbytes x) (.jstr y) path hs rfl,
            compare_basic_nil_iff (.jstr y) (.jbytes x) path hs rfl, pyEq_symm]
          simp only [Bool.or_eq_true]
          tauto
        | .jbytes x, .jbytes y =>
          rw [compare_basic_nil_iff (.jbytes x) (.jbytes y) path hs rfl,
            compare_basic_nil_iff (.jbytes y) (.jbytes x) path hs rfl, pyEq_symm]
          simp only [Bool.or_eq_true]
          tauto
        | .jbytes x, .jlist y =>
          rw [compare_basic_nil_iff (.jbytes x) (.jlist y) path hs rfl,
            compare_basic_nil_iff (.jlist y) (.jbytes x) path hs rfl, pyEq_symm]
          simp only [Bool.or_eq_true]
          tauto
        | .jbytes x, .jdict y =>
          rw [compare_basic_nil_iff (.jbytes x) (.jdict y) path hs rfl,
            compare_basic_nil_iff (.jdict y) (.jbytes x) path hs rfl, pyEq_symm]
          simp only [Bool.or_eq_true]
          tauto
        | .jlist x, .jbool y =>
          rw [compare_basic_nil_iff (.jlist x) (.jbool y) path hs rfl,
            compare_basic_nil_iff (.jbool y) (.jlist x) path hs rfl, pyEq_symm]
          simp only [Bool.or_eq_true]
          tauto
        | .jlist x, .jint y =>
          rw [compare_basic_nil_iff (.jlist x) (.jint y) path hs rfl,
            compare_basic_nil_iff (.jint y) (.jlist x) path hs rfl, pyEq_symm]
          simp only [Bool.or_eq_true]
          tauto
        | .jlist x, .jfloat y =>
          rw [compare_basic_nil_iff (.jlist x) (.jfloat y) path hs rfl,
            compare_basic_nil_iff (.jfloat y) (.jlist x) path hs rfl, pyEq_symm]
          simp only [Bool.or_eq_true]
          tauto
        | .jlist x, .jstr y =>
          rw [compare_basic_nil_iff (.jlist x) (.jstr y) path hs rfl,
            compare_basic_nil_iff (.jstr y) (.jlist x) path hs rfl, pyEq_symm]
          simp only [Bool.or_eq_true]
          tauto
        | .jlist x, .jbytes y =>
          rw [compare_basic_nil_iff (.jlist x) (.jbytes y) path hs rfl,
            compare_basic_nil_iff (.jbytes y) (.jlist x) path hs rfl, pyEq_symm]
          simp only [Bool.or_eq_true]
          tauto
        | .jlist x, .jdict y =>
          rw [compare_basic_nil_iff (.jlist x) (.jdict y) path hs rfl,
            compare_basic_nil_iff (.jdict y) (.jlist x) path hs rfl, pyEq_symm]
          simp only [Bool.or_eq_true]
          tauto
        | .jdict x, .jbool y =>
          rw [compare_basic_nil_iff (.jdict x) (.jbool y) path hs rfl,
            compare_basic_nil_iff (.jbool y) (.jdict x) path hs rfl, pyEq_symm]
          simp only [Bool.or_eq_true]
          tauto
        | .jdict x, .jint y =>
          rw [compare_basic_nil_iff (.jdict x) (.jint y) path hs rfl,
            compare_basic_nil_iff (.jint y) (.jdict x) path hs rfl, pyEq_symm]
          simp only [Bool.or_eq_true]
          tauto
        | .jdict x, .jfloat y =>
          rw [compare_basic_nil_iff (.jdict x) (.jfloat y) path hs rfl,
            compare_basic_nil_iff (.jfloat y) (.jdict x) path hs rfl, pyEq_symm]
          simp only [Bool.or_eq_true]
          tauto
        | .jdict x, .jstr y =>
          rw [compare_basic_nil_iff (.jdict x) (.jstr y) path hs rfl,
            compare_basic_nil_iff (.jstr y) (.jdict x) path hs rfl, pyEq_symm]
          simp only [Bool.or_eq_true]
          tauto
        | .jdict x, .jbytes y =>
          rw [compare_basic_nil_iff (.jdict x) (.jbytes y) path hs rfl,
            compare_basic_nil_iff (.jbytes y) (.jdict x) path hs rfl, pyEq_symm]
          simp only [Bool.or_eq_true]
          tauto
        | .jdict x, .jlist y =>
          rw [compare_basic_nil_iff (.jdict x) (.jlist y) path hs rfl,
            compare_basic_nil_iff (.jlist y) (.jdict x) path hs rfl, pyEq_symm]
          simp only [Bool.or_eq_true]
          tauto
  exact fun v1 v2 path => main (sizeOf v1 + sizeOf v2) v1 v2 le_rfl path

/-! ## Claim C7: comparator symmetry and reflexivity -/

/-- C7: for all trees `A` and `B`, `compare_values(A, B)` returns the
empty list iff `compare_values(B, A)` does, and comparing any tree to
itself returns the empty list. -/
theorem compareValues_symm_refl :
    (∀ A B : JVal, compareValues A B "" = [] ↔ compareValues B A "" = []) ∧
    (∀ A : JVal, compareValues A A "" = []) :=
  ⟨fun A B => compareValues_symm A B "", fun A => compareValues_refl A ""⟩

/-! ## Claim C6: float tolerance and scalar coercion rules -/

/-- C6 counterexample: the claimed iff fails at NaN — comparing NaN
against NaN produces no mismatch although their absolute difference is not
`≤ 1e-6` (any IEEE comparison against NaN is false); and the coercion is
not restricted to *decimal* renderings — the string `"True"` (which does
not match `^-?[0-9]+$`) compares equal to the Python int `True`, because
the code tests `val1 == str(val2)` and `str(True)` is `"True"`. -/
theorem compareValues_float_iff_counterexample :
    compareValues (.jfloat .nan) (.jfloat .nan) "" = [] ∧
    pyLeQ (pyAbs (pySub .nan .nan)) floatTol = false ∧
    compareValues (.jstr "True") (.jbool true) "" = [] ∧
    decRegexMatch "True" = false := by
  refine ⟨?_, rfl, ?_, by decide⟩
  · rw [compareValues_float_eq _ _ _ (by decide)]
    rfl
  · rw [compareValues_eq_basic (.jstr "True") (.jbool true) "" (by decide) rfl]
    simp [pyEq, strIntCoerce]

/-- C6 amended: on a non-skipped path, two floats produce no mismatch iff
`abs(val1 - val2) > 1e-6` is false under IEEE semantics — for finite
floats that is exactly `|a - b| ≤ 1e-6`, and a NaN on either side never
produces a mismatch; for pairs reaching the basic branch (non-None
scalars and mixed types), no mismatch is produced iff the values are
Python-equal or one side is a string equal to Python's `str()` rendering
of the other side's int (or bool) value. -/
theorem compareValues_scalar_rules (path : String) (hs : skipPath path = false) :
    (∀ f1 f2 : PyFloat, (compareValues (.jfloat f1) (.jfloat f2) path = [] ↔
        floatDiffExceeds f1 f2 = false)) ∧
    (∀ q1 q2 : ℚ, (floatDiffExceeds (.finite q1) (.finite q2) = false ↔
        |q1 - q2| ≤ floatTol)) ∧
    (∀ f : PyFloat, floatDiffExceeds .nan f = false ∧ floatDiffExceeds f .nan = false) ∧
    (∀ a b : JVal, basicPair a b = true →
      (compareValues a b path = [] ↔
        (pyEq a b || strIntCoerce a b || strIntCoerce b a) = true)) := by
  refine ⟨?_, ?_, ?_, fun a b hb => compare_basic_nil_iff a b path hs hb⟩
  · intro f1 f2
    rw [compareValues_float_eq _ _ _ hs]
    cases hfd : floatDiffExceeds f1 f2 <;> simp
  · intro q1 q2
    simp only [floatDiffExceeds, pySub, pyAbs, pyGtQ, floatTol,
      decide_eq_false_iff_not, not_lt]
  · intro f
    constructor <;> (cases f <;> rfl)

/-- C6 witness: applied at the root path with a concrete basic pair (the
int 5 against the string "5"). -/
theorem compareValues_scalar_rules_witness :
    skipPath "" = false ∧
    basicPair (.jint 5) (.jstr "5") = true ∧
    (compareValues (.jint 5) (.jstr "5") "" = [] ↔
      (pyEq (.jint 5) (.jstr "5") || strIntCoerce (.jint 5) (.jstr "5") ||
        strIntCoerce (.jstr "5") (.jint 5)) = true) :=
  ⟨by decide, rfl,
    (compareValues_scalar_rules "" (by decide)).2.2.2 (.jint 5) (.jstr "5") rfl⟩

/-! ## The Object Snapshot Builder (`create_object_snapshot`)

Translated from `create_object_snapshot`, `extract_mesh_geometry` and the
Material property extraction in `generate_snapshots.py`.  Exceptions are
modeled with `Except String`: the outer catch-all turns any failure into
the error-metadata document.  `dict.get(k, default)` is total on dicts and
raises (`AttributeError`) on non-dicts; `len` and indexing raise on
unsupported values; `for name, value in xs` requires a list of 2-element
pairs (the modeled universe restricts dict keys to strings, so a pair
whose first component is not a string is modeled as a failure). -/

/-- Python truthiness (`bool(value)`) on the modeled universe.  NaN and
the infinities are truthy. -/
def pyTruthy : JVal → Bool
  | .jnull => false
  | .jbool b => b
  | .jint n => n != 0
  | .jfloat f =>
      match f with
      | .finite q => q != 0
      | _ => true
  | .jstr s => !s.data.isEmpty
  | .jbytes bs => !bs.isEmpty
  | .jlist xs => !xs.isEmpty
  | .jdict kvs => !kvs.isEmpty

/-- Is the value a dict (`isinstance(value, dict)`)? -/
def isDictB : JVal → Bool
  | .jdict _ => true
  | _ => false

/-- `value.get(k, default)`: total on dicts, an exception otherwise. -/
def pyGetD (v : JVal) (k : String) (dflt : JVal) : Except String JVal :=
  match v with
  | .jdict kvs => .ok ((lookupD kvs k).getD dflt)
  | _ => .error "object has no attribute get"

/-- `value[0]`. -/
def pyIndex0 : JVal → Except String JVal
  | .jlist (x :: _) => .ok x
  | .jlist [] => .error "list index out of range"
  | _ => .error "object is not subscriptable"

/-- `len(value)`. -/
def pyLen : JVal → Except String ℕ
  | .jlist xs => .ok xs.length
  | .jdict kvs => .ok kvs.length
  | .jstr s => .ok s.data.length
  | .jbytes bs => .ok bs.length
  | _ => .error "object has no len"

/-- Unpack one element of a saved-property list as `(name, value)`. -/
def pyUnpackPair : JVal → Except String (String × JVal)
  | .jlist [.jstr k, w] => .ok (k, w)
  | _ => .error "cannot unpack"

/-- Iterate a saved-property list, unpacking each element into a pair. -/
def pyPairs : JVal → Except String (List (String × JVal))
  | .jlist xs => xs.mapM pyUnpackPair
  | _ => .error "not iterable"

/-- Python dict assignment `d[k] = v` on an insertion-ordered dict:
overwrite in place if the key exists, else append. -/
def dictInsert (kvs : List (String × JVal)) (k : String) (v : JVal) :
    List (String × JVal) :=
  if (kvs.map Prod.fst).contains k then
    kvs.map (fun p => if p.1 = k then (k, v) else p)
  else kvs ++ [(k, v)]

/-- The result of `MeshHandler` processing consumed by
`extract_mesh_geometry`: each attribute is `None` or a list. -/
structure HandlerData where
  vertices : Option (List JVal)
  indexBuffer : Option (List JVal)
  uv0 : Option (List JVal)
  uv1 : Option (List JVal)
  colors : Option (List JVal)
  normals : Option (List JVal)
  tangents : Option (List JVal)

/-- Truthiness of a `None`-or-list attribute. -/
def optListTruthy : Option (List JVal) → Bool
  | some (_ :: _) => true
  | _ => false

/-- `attr if attr else []`. -/
def optListOrEmpty : Option (List JVal) → List JVal
  | some (x :: xs) => x :: xs
  | _ => []

/-- One asset object as consumed by `create_object_snapshot`: its type
name, class id, byte range, the result of `parse_as_dict()`, and (used for
Mesh objects only) the result of `read()` composed with MeshHandler
processing — the outer `Except` is a `read()` exception (reaching the
builder's catch-all), the inner one a handler failure (caught inside
`extract_mesh_geometry`). -/
structure ObjReader where
  typeName : String
  classId : ℤ
  byteStart : ℤ
  byteSize : ℤ
  parseResult : Except String JVal
  readResult : Except String (Except String HandlerData)

/-- `extract_mesh_geometry(mesh_obj, version)`. -/
def extractMeshGeometry (h : Except String HandlerData) : JVal :=
  match h with
  | .error e =>
      .jdict [("error", .jstr ("Failed to extract geometry: " ++ e)),
              ("vertex_count", .jint 0), ("index_count", .jint 0),
              ("uv0", .jlist []), ("uv1", .jlist []), ("colors", .jlist [])]
  | .ok hd =>
      let verts := optListOrEmpty hd.vertices
      let inds := optListOrEmpty hd.indexBuffer
      .jdict [("vertices", .jlist verts),
              ("vertex_count", .jint verts.length),
              ("indices", .jlist inds),
              ("index_count", .jint inds.length),
              ("uv0", .jlist (optListOrEmpty hd.uv0)),
              ("uv1", .jlist (optListOrEmpty hd.uv1)),
              ("colors", .jlist []),
              ("has_normals", .jbool (optListTruthy hd.normals)),
              ("has_tangents", .jbool (optListTruthy hd.tangents))]

/-- The Mesh-specific extras (`_geometry_info` when the first sub-mesh is
present, then `_mesh_data`). -/
def buildMeshExtras (r : ObjReader) (data : JVal) :
    Except String (List (String × JVal)) := do
  let handlerRes ← r.readResult
  let subMeshes ← pyGetD data "m_SubMeshes" (.jlist [])
  let geomInfo ←
    if pyTruthy subMeshes then do
      let sm ← pyIndex0 subMeshes
      let vc ← pyGetD sm "vertexCount" (.jint 0)
      let ic ← pyGetD sm "indexCount" (.jint 0)
      let topo ← pyGetD sm "topology" (.jint 0)
      let ib ← pyGetD data "m_IndexBuffer" (.jlist [])
      let ibLen ← pyLen ib
      let cm ← pyGetD data "m_CompressedMesh" (.jdict [])
      let sd ← pyGetD data "m_StreamData" (.jdict [])
      let ssize ← pyGetD sd "size" (.jint 0)
      pure [("_geometry_info", JVal.jdict
        [("vertex_count", vc), ("index_count", ic), ("topology", topo),
         ("has_index_buffer", .jbool (decide (0 < ibLen))),
         ("has_compressed_mesh", .jbool (pyTruthy cm)),
         ("has_stream_data", .jbool (pyTruthy sd)),
         ("stream_size", ssize)])]
    else pure []
  pure (geomInfo ++ [("_mesh_data", extractMeshGeometry handlerRes)])

/-- One color entry `{r, g, b, a}` with per-channel default `1.0`. -/
def colorEntry (cd : List (String × JVal)) : JVal :=
  .jdict [("r", (lookupD cd "r").getD (.jfloat (.finite 1))),
          ("g", (lookupD cd "g").getD (.jfloat (.finite 1))),
          ("b", (lookupD cd "b").getD (.jfloat (.finite 1))),
          ("a", (lookupD cd "a").getD (.jfloat (.finite 1)))]

/-- `isinstance(v, (int, float))` (incl. bool) as a float value. -/
def asNumFloat : JVal → Option PyFloat
  | .jint n => some (.finite n)
  | .jfloat f => some f
  | .jbool b => some (.finite (if b then 1 else 0))
  | _ => none

/-- The texture-bindings loop over `m_TexEnvs`. -/
def buildTexturesGo (acc : List (String × JVal)) :
    List (String × JVal) → Except String (List (String × JVal))
  | [] => pure acc
  | (name, td) :: rest => do
      if pyTruthy td && isDictB td then
        let tref ← pyGetD td "m_Texture" (.jdict [])
        let tpid : JVal :=
          match tref with
          | .jdict kvs => (lookupD kvs "m_PathID").getD .jnull
          | _ => .jnull
        if pyTruthy tpid then
          let scale ← pyGetD td "m_Scale" (.jdict [])
          let offset ← pyGetD td "m_Offset" (.jdict [])
          let sx ← pyGetD scale "x" (.jfloat (.finite 1))
          let sy ← pyGetD scale "y" (.jfloat (.finite 1))
          let ox ← pyGetD offset "x" (.jfloat (.finite 0))
          let oy ← pyGetD offset "y" (.jfloat (.finite 0))
          buildTexturesGo (dictInsert acc name (.jdict
            [("path_id", .jstr (pyStrApprox tpid)),
             ("scale", .jdict [("x", sx), ("y", sy)]),
             ("offset", .jdict [("x", ox), ("y", oy)])])) rest
        else buildTexturesGo acc rest
      else buildTexturesGo acc rest

/-- The Material-specific extras (`_colors`/`_color`, `_floats`,
`_textures`), each emitted only when nonempty. -/
def buildMaterialExtras (data : JVal) :
    Except String (List (String × JVal)) := do
  let savedProps ← pyGetD data "m_SavedProperties" (.jdict [])
  let colorsV ← pyGetD savedProps "m_Colors" (.jlist [])
  let colorPairs ← pyPairs colorsV
  let mcolors := colorPairs.foldl (fun acc p =>
    match p.2 with
    | .jdict cd => dictInsert acc p.1 (colorEntry cd)
    | _ => acc) []
  let colorExtras :=
    if mcolors.isEmpty then []
    else ("_colors", JVal.jdict mcolors) ::
      (match lookupD mcolors "_Color" with
       | some c => [("_color", c)]
       | none => [])
  let floatsV ← pyGetD savedProps "m_Floats" (.jlist [])
  let floatPairs ← pyPairs floatsV
  let mfloats := floatPairs.foldl (fun acc p =>
    match asNumFloat p.2 with
    | some f => dictInsert acc p.1 (.jfloat f)
    | none => acc) []
  let floatExtras := if mfloats.isEmpty then [] else [("_floats", JVal.jdict mfloats)]
  let texV ← pyGetD savedProps "m_TexEnvs" (.jlist [])
  let texPairs ← pyPairs texV
  let textures ← buildTexturesGo [] texPairs
  let texExtras := if textures.isEmpty then [] else [("_textures", JVal.jdict textures)]
  pure (colorExtras ++ floatExtras ++ texExtras)

/-- The property tree used by the rest of the builder: the parse result,
or the `{_error, _type}` replacement document on parse failure. -/
def parsedData (r : ObjReader) : JVal :=
  match r.parseResult with
  | .ok d => d
  | .error e =>
      .jdict [("_error", .jstr ("Failed to parse: " ++ e)),
              ("_type", .jstr r.typeName)]

/-- The body of `create_object_snapshot` up to (and excluding) the outer
catch-all.  Note only the `data` section passes through `serialize_value`;
the extra fields are merged as built. -/
def createObjectSnapshotCore (r : ObjReader) (pathId : ℤ) : Except String JVal :=
  match (if r.typeName == "Mesh" && isDictB (parsedData r)
         then buildMeshExtras r (parsedData r) else .ok []) with
  | .error e => .error e
  | .ok meshExtras =>
    match (if r.typeName == "Material" && isDictB (parsedData r)
           then buildMaterialExtras (parsedData r) else .ok []) with
    | .error e => .error e
    | .ok matExtras =>
      .ok (.jdict
        ([("metadata", JVal.jdict
            [("path_id", .jstr (intStr pathId)),
             ("class_id", .jint r.classId),
             ("type", .jstr r.typeName),
             ("byte_start", .jint r.byteStart),
             ("byte_size", .jint r.byteSize)]),
          ("data", serializeValue (parsedData r) none)] ++ meshExtras ++ matExtras))

/-- `create_object_snapshot(obj_reader, path_id, version)`: the outer
catch-all yields the error-metadata document. -/
def createObjectSnapshot (r : ObjReader) (pathId : ℤ) : JVal :=
  match createObjectSnapshotCore r pathId with
  | .ok s => s
  | .error e =>
      .jdict [("metadata", .jdict [("path_id", .jstr (intStr pathId)),
                                   ("error", .jstr e)]),
              ("data", .jnull)]

/-! ## Claim C2: what is (and is not) normalized in a snapshot document -/

/-- Is the value a Python int (including bool)? -/
def isIntLikeB : JVal → Bool
  | .jint _ => true
  | .jbool _ => true
  | _ => false

mutual

/-- No identifier-named dict entry anywhere in the tree directly holds a
Python int (or bool).  This is the property `validate_pathids_are_strings`
checks for int values, and the property `convert_pathids_to_strings`
establishes. -/
def idIntFreeB : JVal → Bool
  | .jdict kvs => idIntFreeDict kvs
  | .jlist xs => idIntFreeList xs
  | _ => true

def idIntFreeList : List JVal → Bool
  | [] => true
  | x :: xs => idIntFreeB x && idIntFreeList xs

def idIntFreeDict : List (String × JVal) → Bool
  | [] => true
  | (k, v) :: rest =>
      !(pathIdKeys.contains k && isIntLikeB v) && idIntFreeB v && idIntFreeDict rest

end

/-- A Material object whose raw color channel `r` is a dict holding an
integer `m_PathID` — the builder copies it into `_colors` untouched. -/
def materialRawColorReader : ObjReader :=
  { typeName := "Material", classId := 21, byteStart := 0, byteSize := 0,
    parseResult := .ok (.jdict
      [("m_SavedProperties", .jdict
        [("m_Colors", .jlist
          [.jlist [.jstr "_Color",
                   .jdict [("r", .jdict [("m_PathID", .jint 7)])]]])])]),
    readResult := .ok (.error "unused") }

/-- C2 counterexample: the document returned by `create_object_snapshot`
for `materialRawColorReader` contains the raw integer `7` directly under
an `m_PathID` key (inside the `_colors` extra field), so the document was
not passed through the Value Normalizer in its entirety, and not every
identifier-named field in it is a string; normalizing the returned
document changes it. -/
theorem createObjectSnapshot_not_fully_normalized :
    idIntFreeB (createObjectSnapshot materialRawColorReader 1) = false ∧
    serializeValue (createObjectSnapshot materialRawColorReader 1) none ≠
      createObjectSnapshot materialRawColorReader 1 := by
  constructor
  · rfl
  · intro h
    have h2 : idIntFreeB (serializeValue
        (createObjectSnapshot materialRawColorReader 1) none) = true := by rfl
    rw [h] at h2
    have h3 : idIntFreeB (createObjectSnapshot materialRawColorReader 1) = false := by
      rfl
    rw [h2] at h3
    exact Bool.noConfusion h3

theorem pyStrIntLike_none_of {v : JVal} (h : pyStrIntLike v = none) :
    isIntLikeB v = false := by
  cases v <;> simp_all [pyStrIntLike, isIntLikeB]

theorem isIntLikeB_convertPathids {v : JVal} (h : isIntLikeB v = false) :
    isIntLikeB (convertPathids v) = false := by
  cases v <;> simp_all [convertPathids, isIntLikeB]

theorem convertPathids_idIntFree : ∀ v : JVal, idIntFreeB (convertPathids v) = true := by
  intro v
  induction v using JVal.inductionOn with
  | hnull => rfl
  | hbool b => rfl
  | hint n => rfl
  | hfloat f => rfl
  | hstr s => rfl
  | hbytes bs => rfl
  | hlist xs ih =>
    have main : ∀ l : List JVal, (∀ x ∈ l, idIntFreeB (convertPathids x) = true) →
        idIntFreeList (convertPathidsList l) = true := by
      intro l
      induction l with
      | nil => intro _; rfl
      | cons x rest ihl =>
        intro hl
        simp only [convertPathidsList, idIntFreeList, Bool.and_eq_true]
        exact ⟨hl x (List.mem_cons_self _ _),
          ihl (fun z hz => hl z (List.mem_cons_of_mem _ hz))⟩
    simp only [convertPathids, idIntFreeB]
    exact main xs ih
  | hdict kvs ih =>
    have main : ∀ l : List (String × JVal),
        (∀ p ∈ l, idIntFreeB (convertPathids p.2) = true) →
        idIntFreeDict (convertPathidsDict l) = true := by
      intro l
      induction l with
      | nil => intro _; rfl
      | cons p rest ihl =>
        intro hl
        obtain ⟨k, v⟩ := p
        have hv : idIntFreeB (convertPathids v) = true :=
          hl (k, v) (List.mem_cons_self _ _)
        have hrest : idIntFreeDict (convertPathidsDict rest) = true :=
          ihl (fun z hz => hl z (List.mem_cons_of_mem _ hz))
        simp only [convertPathidsDict, idIntFreeDict, Bool.and_eq_true]
        by_cases hk : pathIdKeys.contains k = true
        · rw [if_pos hk]
          match hpy : pyStrIntLike v with
          | some s =>
            refine ⟨⟨?_, rfl⟩, hrest⟩
            simp only [isIntLikeB, Bool.and_false, Bool.not_false]
          | none =>
            have h1 : isIntLikeB v = false := pyStrIntLike_none_of hpy
            have h2 : isIntLikeB (convertPathids v) = false :=
              isIntLikeB_convertPathids h1
            refine ⟨⟨?_, hv⟩, hrest⟩
            simp only [h2, Bool.and_false, Bool.not_false]
        · rw [if_neg hk]
          have hk' : pathIdKeys.contains k = false := by
            simpa using hk
          refine ⟨⟨?_, hv⟩, hrest⟩
          simp only [hk', Bool.false_and, Bool.not_false]
    simp only [convertPathids, idIntFreeB]
    exact main kvs ih

/-- C2 amended: inside `create_object_snapshot` only the `data` section is
passed through the Value Normalizer — the document is
`{metadata, data: serialize_value(parsed tree)} ++ extras` with the extras
merged as built (identifier fields they construct themselves, such as
`metadata.path_id` and `_textures[*].path_id`, are explicitly rendered as
strings at construction).  The throughout-the-document string guarantee
comes from the orchestrator, which applies `convert_pathids_to_strings` to
the whole document before writing: after that pass no identifier-named
field anywhere directly holds an int (or bool). -/
theorem createObjectSnapshot_normalization (r : ObjReader) (pid : ℤ) (s : JVal)
    (h : createObjectSnapshotCore r pid = .ok s) :
    (∃ kvs, s = .jdict kvs ∧
      lookupD kvs "data" = some (serializeValue (parsedData r) none) ∧
      lookupD kvs "metadata" = some (.jdict
        [("path_id", .jstr (intStr pid)), ("class_id", .jint r.classId),
         ("type", .jstr r.typeName), ("byte_start", .jint r.byteStart),
         ("byte_size", .jint r.byteSize)])) ∧
    (∀ v : JVal, idIntFreeB (convertPathids v) = true) := by
  refine ⟨?_, convertPathids_idIntFree⟩
  unfold createObjectSnapshotCore at h
  split at h
  · exact absurd h (by simp)
  · split at h
    · exact absurd h (by simp)
    · simp only [Except.ok.injEq] at h
      refine ⟨_, h.symm, ?_, ?_⟩
      · simp [lookupD]
      · simp [lookupD]

/-- C2 amended witness: a plain GameObject-typed reader with a trivial
parse tree. -/
theorem createObjectSnapshot_normalization_witness :
    createObjectSnapshotCore
      { typeName := "GameObject", classId := 1, byteStart := 0, byteSize := 8,
        parseResult := .ok (.jdict [("m_Name", .jstr "x")]),
        readResult := .error "unused" } 3 =
      .ok (.jdict
        [("metadata", .jdict
          [("path_id", .jstr (intStr 3)), ("class_id", .jint 1),
           ("type", .jstr "GameObject"), ("byte_start", .jint 0),
           ("byte_size", .jint 8)]),
         ("data", serializeValue (.jdict [("m_Name", .jstr "x")]) none)]) ∧
    ((∃ kvs,
        JVal.jdict
          [("metadata", .jdict
            [("path_id", .jstr (intStr 3)), ("class_id", .jint 1),
             ("type", .jstr "GameObject"), ("byte_start", .jint 0),
             ("byte_size", .jint 8)]),
           ("data", serializeValue (.jdict [("m_Name", .jstr "x")]) none)] = .jdict kvs ∧
        lookupD kvs "data" = some (serializeValue (parsedData
          { typeName := "GameObject", classId := 1, byteStart := 0, byteSize := 8,
            parseResult := .ok (.jdict [("m_Name", .jstr "x")]),
            readResult := .error "unused" }) none) ∧
        lookupD kvs "metadata" = some (.jdict
          [("path_id", .jstr (intStr 3)), ("class_id", .jint 1),
           ("type", .jstr "GameObject"), ("byte_start", .jint 0),
           ("byte_size", .jint 8)])) ∧
      (∀ v : JVal, idIntFreeB (convertPathids v) = true)) :=
  ⟨rfl, createObjectSnapshot_normalization _ 3 _ rfl⟩

/-! ## Claim C5: parse failures are contained per object -/

/-- A Mesh object whose property-tree parse fails and whose mesh re-read
also raises. -/
def meshDoubleFailReader : ObjReader :=
  { typeName := "Mesh", classId := 43, byteStart := 0, byteSize := 0,
    parseResult := .error "boom",
    readResult := .error "read failed" }

/-- C5 counterexample: when the parse of a Mesh object fails AND its
re-read as a decoded mesh raises, the returned document's body is `None`
(with the error in the metadata), not the claimed `{_error, _type}` dict:
the parse-failure replacement body is lost to the outer catch-all. -/
theorem createObjectSnapshot_parse_error_counterexample :
    createObjectSnapshot meshDoubleFailReader 7 =
      .jdict [("metadata", .jdict [("path_id", .jstr (intStr 7)),
                                   ("error", .jstr "read failed")]),
              ("data", .jnull)] ∧
    (JVal.jnull =
      .jdict [("_error", .jstr ("Failed to parse: " ++ "boom")),
              ("_type", .jstr "Mesh")]) = False := by
  constructor
  · rfl
  · simp

theorem serializeValue_errBody (msg t : String) :
    serializeValue (.jdict [("_error", .jstr msg), ("_type", .jstr t)]) none =
      .jdict [("_error", .jstr msg), ("_type", .jstr t)] := by
  simp [serializeValue, serializeDict]

/-! ## The persistence pass of the orchestrator (`generate_file_snapshots`)

The file writes of one bundle pass, modeled as the ordered trace of
successful writes.  In the source the order is: the texture-extraction
block (which writes `textures_index.json` when at least one texture was
produced, inside its own try/except), then the `manifest.json` write, then
the `summary.json` write (both unprotected: an exception there is caught
only by the function's outer handler, which abandons the rest of the
pass), then one write per object in enumeration order, each inside its
own try/except (a failing object write is logged and skipped).  A write's
failure is modeled by the `fails` predicate on file names. -/

/-- One enumerated object of the bundle. -/
structure ObjEntry where
  reader : ObjReader
  pathId : ℤ

/-- Python `f"{i:03d}"`. -/
def pad3 (n : ℕ) : String :=
  let s := natStr n
  if s.length < 3 then String.mk (List.replicate (3 - s.length) '0') ++ s else s

/-- `f"{i:03d}_{type_name}_{obj.path_id}.json"`. -/
def objFileName (i : ℕ) (e : ObjEntry) : String :=
  pad3 i ++ "_" ++ e.reader.typeName ++ "_" ++ intStr e.pathId ++ ".json"

/-- The per-object file names in canonical enumeration order. -/
def objFileNames (objs : List ObjEntry) : List String :=
  objs.enum.map (fun p => objFileName p.1 p.2)

/-- The ordered trace of files successfully persisted by one bundle pass
(after loading succeeded), given the texture-extraction successes
`texMap` and the write-failure predicate `fails`. -/
def persistTrace (texMap : List (String × String)) (objs : List ObjEntry)
    (fails : String → Bool) : List String :=
  let texPart :=
    if !texMap.isEmpty && !fails "textures_index.json"
    then ["textures_index.json"] else []
  if fails "manifest.json" then texPart
  else if fails "summary.json" then texPart ++ ["manifest.json"]
  else texPart ++ ["manifest.json", "summary.json"] ++
    (objFileNames objs).filter (fun n => !fails n)

/-- Per-object writes are independent: an object's file is persisted
whenever its own write succeeds and the pass reached the object loop
(manifest and summary writes succeeded), regardless of every other
object's parse or write outcome. -/
theorem mem_persistTrace_of_ok (texMap : List (String × String))
    (objs : List ObjEntry) (fails : String → Bool) (n : String)
    (hn : n ∈ objFileNames objs) (hok : fails n = false)
    (hman : fails "manifest.json" = false) (hsum : fails "summary.json" = false) :
    n ∈ persistTrace texMap objs fails := by
  unfold persistTrace
  rw [if_neg (by simp [hman]), if_neg (by simp [hsum])]
  simp [List.mem_append, List.mem_filter, hn, hok]

/-- A sample reader for trace witnesses. -/
def plainReader (t : String) : ObjReader :=
  { typeName := t, classId := 0, byteStart := 0, byteSize := 0,
    parseResult := .ok (.jdict []), readResult := .error "unused" }

/-- C5 amended: when parsing an object's property tree fails,
`create_object_snapshot` does not propagate the failure — provided no
later per-object step itself raises (for a Mesh that means the re-read
succeeds; all other steps are safe on the replacement body), the returned
document's body is exactly `{_error: "Failed to parse: " + msg, _type:
type name}`; when a later step does raise, the outer guard still returns
an error-metadata document rather than propagating.  In both cases the
orchestrator's per-object loop is unaffected: every object whose own
write does not fail is persisted, regardless of any other object's parse
outcome. -/
theorem createObjectSnapshot_parse_error (r : ObjReader) (pid : ℤ) (msg : String)
    (hp : r.parseResult = .error msg)
    (hm : r.typeName = "Mesh" → ∃ h, r.readResult = .ok h) :
    (∃ kvs, createObjectSnapshot r pid = .jdict kvs ∧
      lookupD kvs "data" = some (.jdict
        [("_error", .jstr ("Failed to parse: " ++ msg)),
         ("_type", .jstr r.typeName)])) ∧
    (∀ (tex : List (String × String)) (objs : List ObjEntry)
        (fails : String → Bool) (n : String),
      n ∈ objFileNames objs → fails n = false →
      fails "manifest.json" = false → fails "summary.json" = false →
      n ∈ persistTrace tex objs fails) := by
  refine ⟨?_, fun tex objs fails n hn hok hman hsum =>
    mem_persistTrace_of_ok tex objs fails n hn hok hman hsum⟩
  have hdata : parsedData r = .jdict
      [("_error", .jstr ("Failed to parse: " ++ msg)),
       ("_type", .jstr r.typeName)] := by
    unfold parsedData
    rw [hp]
  by_cases hmesh : (r.typeName == "Mesh") = true
  · obtain ⟨hd, hread⟩ := hm (by simpa using hmesh)
    have hme : buildMeshExtras r (parsedData r) =
        .ok [("_mesh_data", extractMeshGeometry hd)] := by
      unfold buildMeshExtras
      rw [hread, hdata]
      rfl
    have c1 : (if ((r.typeName == "Mesh") && isDictB (parsedData r)) = true
        then buildMeshExtras r (parsedData r)
        else Except.ok ([] : List (String × JVal))) =
        .ok [("_mesh_data", extractMeshGeometry hd)] := by
      rw [if_pos (by rw [hmesh, hdata]; rfl)]
      exact hme
    have hmat : (r.typeName == "Material") = false := by
      have ht : r.typeName = "Mesh" := by simpa using hmesh
      simp [ht]
    have c2 : (if ((r.typeName == "Material") && isDictB (parsedData r)) = true
        then buildMaterialExtras (parsedData r)
        else Except.ok ([] : List (String × JVal))) =
        .ok ([] : List (String × JVal)) := by
      rw [if_neg (by rw [hmat]; simp)]
    unfold createObjectSnapshot createObjectSnapshotCore
    rw [c1, c2]
    refine ⟨_, rfl, ?_⟩
    rw [hdata, serializeValue_errBody]
    simp [lookupD]
  · have hmesh' : (r.typeName == "Mesh") = false := by simpa using hmesh
    have c1 : (if ((r.typeName == "Mesh") && isDictB (parsedData r)) = true
        then buildMeshExtras r (parsedData r)
        else Except.ok ([] : List (String × JVal))) =
        .ok ([] : List (String × JVal)) := by
      rw [if_neg (by rw [hmesh']; simp)]
    by_cases hmatp : (r.typeName == "Material") = true
    · have hmatok : buildMaterialExtras (parsedData r) =
          .ok ([] : List (String × JVal)) := by
        unfold buildMaterialExtras
        rw [hdata]
        rfl
      have c2 : (if ((r.typeName == "Material") && isDictB (parsedData r)) = true
          then buildMaterialExtras (parsedData r)
          else Except.ok ([] : List (String × JVal))) =
          .ok ([] : List (String × JVal)) := by
        rw [if_pos (by rw [hmatp, hdata]; rfl)]
        exact hmatok
      unfold createObjectSnapshot createObjectSnapshotCore
      rw [c1, c2]
      refine ⟨_, rfl, ?_⟩
      rw [hdata, serializeValue_errBody]
      simp [lookupD]
    · have hmat' : (r.typeName == "Material") = false := by simpa using hmatp
      have c2 : (if ((r.typeName == "Material") && isDictB (parsedData r)) = true
          then buildMaterialExtras (parsedData r)
          else Except.ok ([] : List (String × JVal))) =
          .ok ([] : List (String × JVal)) := by
        rw [if_neg (by rw [hmat']; simp)]
      unfold createObjectSnapshot createObjectSnapshotCore
      rw [c1, c2]
      refine ⟨_, rfl, ?_⟩
      rw [hdata, serializeValue_errBody]
      simp [lookupD]

/-- A Material object whose parse fails (re-read is irrelevant for
non-Mesh types). -/
def materialParseFailReader : ObjReader :=
  { typeName := "Material", classId := 21, byteStart := 0, byteSize := 0,
    parseResult := .error "oops",
    readResult := .error "unused" }

/-- C5 witness: the amended theorem applied to `materialParseFailReader`. -/
theorem createObjectSnapshot_parse_error_witness :
    materialParseFailReader.parseResult = .error "oops" ∧
    ((∃ kvs, createObjectSnapshot materialParseFailReader 2 = .jdict kvs ∧
      lookupD kvs "data" = some (.jdict
        [("_error", .jstr ("Failed to parse: " ++ "oops")),
         ("_type", .jstr materialParseFailReader.typeName)])) ∧
     (∀ (tex : List (String × String)) (objs : List ObjEntry)
         (fails : String → Bool) (n : String),
       n ∈ objFileNames objs → fails n = false →
       fails "manifest.json" = false → fails "summary.json" = false →
       n ∈ persistTrace tex objs fails)) :=
  ⟨rfl, createObjectSnapshot_parse_error materialParseFailReader 2 "oops" rfl
    (fun h => absurd h (by decide))⟩

/-! ## Claim C3: persistence order of one bundle pass -/

/-- C3 counterexample: with one extracted texture and no write failures,
the pass persists the texture index FIRST, then the manifest, then the
summary, then the objects — not manifest, summary, texture index, objects
as the claim states. -/
theorem persistTrace_order_counterexample :
    persistTrace [("1", "textures/tex_1.png")] [⟨plainReader "Mesh", 5⟩]
      (fun _ => false) =
      ["textures_index.json", "manifest.json", "summary.json", "000_Mesh_5.json"] ∧
    (["textures_index.json", "manifest.json", "summary.json", "000_Mesh_5.json"] =
      ["manifest.json", "summary.json", "textures_index.json", "000_Mesh_5.json"]) =
      False := by
  constructor
  · rfl
  · simp

/-- C3 amended: the pass persists, in this order: the texture index
(only if at least one texture was produced), then the manifest, then the
summary, then one document per object named
`{zero-padded index}_{type tag}_{identifier}.json` in enumeration order.
The texture-index write and each per-object write are individually
protected, so their failure does not affect the other writes — in
particular a failing texture-index write leaves the manifest, summary and
object writes exactly as they would otherwise be; the manifest and
summary writes are not protected — a manifest write failure abandons
every later write, and a summary write failure abandons the object
writes (only the texture-index write, if any, and the manifest write
survive such a pass). -/
theorem persistTrace_characterization :
    (∀ (tex : List (String × String)) (objs : List ObjEntry),
      persistTrace tex objs (fun _ => false) =
        (if tex.isEmpty then [] else ["textures_index.json"]) ++
        ["manifest.json", "summary.json"] ++ objFileNames objs) ∧
    (∀ tex objs (fails : String → Bool) (n : String),
      n ∈ objFileNames objs → fails n = false →
      fails "manifest.json" = false → fails "summary.json" = false →
      n ∈ persistTrace tex objs fails) ∧
    (∀ tex objs (fails : String → Bool), fails "manifest.json" = true →
      persistTrace tex objs fails =
        (if !tex.isEmpty && !fails "textures_index.json"
         then ["textures_index.json"] else [])) ∧
    (∀ objs (fails : String → Bool),
      fails "manifest.json" = false → fails "summary.json" = false →
      persistTrace [] objs fails =
        ["manifest.json", "summary.json"] ++
          (objFileNames objs).filter (fun n => !fails n)) ∧
    (∀ tex objs (fails : String → Bool),
      fails "manifest.json" = false → fails "summary.json" = true →
      persistTrace tex objs fails =
        (if !tex.isEmpty && !fails "textures_index.json"
         then ["textures_index.json"] else []) ++ ["manifest.json"]) ∧
    (∀ tex objs (fails : String → Bool), fails "textures_index.json" = true →
      fails "manifest.json" = false → fails "summary.json" = false →
      persistTrace tex objs fails =
        ["manifest.json", "summary.json"] ++
          (objFileNames objs).filter (fun n => !fails n)) := by
  refine ⟨?_, mem_persistTrace_of_ok, ?_, ?_, ?_, ?_⟩
  · intro tex objs
    unfold persistTrace
    rw [if_neg (by simp), if_neg (by simp)]
    by_cases htex : tex.isEmpty
    · rw [if_neg (by simp [htex]), if_pos htex]
      simp [List.filter_eq_self]
    · rw [if_pos (by simp [htex]), if_neg htex]
      simp [List.filter_eq_self]
  · intro tex objs fails hman
    unfold persistTrace
    rw [if_pos hman]
  · intro objs fails hman hsum
    unfold persistTrace
    rw [if_neg (by simp [hman]), if_neg (by simp [hsum])]
    simp
  · intro tex objs fails hman hsum
    unfold persistTrace
    rw [if_neg (by simp [hman]), if_pos hsum]
  · intro tex objs fails htex hman hsum
    unfold persistTrace
    rw [if_neg (by simp [hman]), if_neg (by simp [hsum])]
    rw [if_neg (by simp [htex])]
    simp

/-- C3 witness: instantiating the amended characterization at a
no-failure pass over one texture and two objects, at a pass whose
manifest write fails, at a pass whose summary write fails (the object
writes are abandoned), and at a pass whose texture-index write fails
with a nonempty texture map (the manifest, summary and object writes
are unaffected). -/
theorem persistTrace_characterization_witness :
    persistTrace [("9", "textures/tex_9.png")]
      [⟨plainReader "Material", -3⟩, ⟨plainReader "Mesh", 11⟩] (fun _ => false) =
      ["textures_index.json", "manifest.json", "summary.json",
       "000_Material_-3.json", "001_Mesh_11.json"] ∧
    persistTrace [("9", "textures/tex_9.png")] [⟨plainReader "Mesh", 11⟩]
      (fun n => n == "manifest.json") = ["textures_index.json"] ∧
    persistTrace [("9", "textures/tex_9.png")] [⟨plainReader "Mesh", 11⟩]
      (fun n => n == "summary.json") = ["textures_index.json", "manifest.json"] ∧
    persistTrace [("9", "textures/tex_9.png")] [⟨plainReader "Mesh", 11⟩]
      (fun n => n == "textures_index.json") =
      ["manifest.json", "summary.json", "000_Mesh_11.json"] := by
  refine ⟨?_, ?_, ?_, ?_⟩
  · have h := persistTrace_characterization.1 [("9", "textures/tex_9.png")]
      [⟨plainReader "Material", -3⟩, ⟨plainReader "Mesh", 11⟩]
    rw [h]
    rfl
  · have h := persistTrace_characterization.2.2.1 [("9", "textures/tex_9.png")]
      [⟨plainReader "Mesh", 11⟩] (fun n => n == "manifest.json") (by rfl)
    rw [h]
    rfl
  · have h := persistTrace_characterization.2.2.2.2.1 [("9", "textures/tex_9.png")]
      [⟨plainReader "Mesh", 11⟩] (fun n => n == "summary.json") (by rfl) (by rfl)
    rw [h]
    rfl
  · have h := persistTrace_characterization.2.2.2.2.2 [("9", "textures/tex_9.png")]
      [⟨plainReader "Mesh", 11⟩] (fun n => n == "textures_index.json")
      (by rfl) (by rfl) (by rfl)
    rw [h]
    rfl
